import Mathlib

/-!
PlanetaryEccentricCycloid: generation of the sun and frame profiles of a cycloidal gearbox.

A shallow embedding of `PlanetaryEccentricCycloid.cpp`: the user-defined values, the
calculated values, `degreesToRadians`, `calculateSunCurve`, `calculateFrameCurve`, the
sampling loop of `run` and the control flow of `run` itself.

Conventions of the embedding.

* `double` values are elements of a linear ordered field `α`; the definitions are polymorphic
  in `α`, so they evaluate over `ℚ` and are reasoned about over `ℝ`.  The arithmetic of the
  calculated values and of the curves is exact.  The addition `angle + step_size` of the
  sampling loop, which decides how often the loop runs, is the `double` addition: the exact
  sum rounded to the nearest `double` (`roundDouble`), with its overflow to an infinity.
* The `double` division by `number_of_planets = 0` yields an infinity or a NaN, not a number.
  `default_eccentricity` and the values computed from it are the numbers the source computes
  when `number_of_planets ≠ 0`; `default_eccentricity?`, `calculateSunCurve?` and
  `calculateFrameCurve?` say in addition when there is no number.
* `int` values are integers in `[INT_MIN, INT_MAX]`, the range of a 32-bit `int`; `int`
  addition and subtraction are followed by `wrapInt32`.  Conversion of an `int` to `double`
  is exact and is the cast `Int → α`.
* `cos`, `sin` of `<cmath>` and the literal `3.141592653589793238463` are the fields of a
  `MathEnv`; over `ℝ` they are instantiated with `Real.cos`, `Real.sin` and `Real.pi`, that
  is, the degree-to-radian factor is taken as exactly `π / 180`.
* The loop of `run` takes a bound on the number of its loop tests and is `none` when the
  bound is used up; statements about its result are proved for every sufficient bound.
-/

namespace PlanetaryEccentricCycloid

/-! ## Machine integers -/

/-- Two's-complement reduction of an integer into the range of a 32-bit `int`: the value an
`int` holds after an addition or subtraction whose exact result is `z`.  It is `z` itself
when `z` fits; an overflowing result wraps around (in C++ signed overflow is undefined; no
`int` holds the exact result then, and the compilers the add-in is built with wrap). -/
def wrapInt32 (z : Int) : Int := (z + 2147483648) % 4294967296 - 2147483648

/-- The largest value of a 32-bit `int`. -/
def INT_MAX : Int := 2147483647

/-- The smallest value of a 32-bit `int`. -/
def INT_MIN : Int := -2147483648

/-! ## User-defined values (lines 41-47) -/

/-- The six user-defined globals of the add-in.  The two last fields say that
`number_of_planets` is a value of the type `int`. -/
structure Config (α : Type) where
  /-- `double planetOrbitRadius`: distance from the center that the planets orbit around. -/
  planetOrbitRadius : α
  /-- `double planetRadius`. -/
  planetRadius : α
  /-- `int number_of_planets`. -/
  number_of_planets : Int
  /-- `double contraction`: contraction of sun and frame gear. -/
  contraction : α
  /-- `double planet_shaft_radius`. -/
  planet_shaft_radius : α
  /-- `double step_size`: resolution of the points generated for the gears. -/
  step_size : α
  /-- `number_of_planets` is an `int`: it is not below `INT_MIN`. -/
  number_of_planets_min : INT_MIN ≤ number_of_planets := by decide
  /-- `number_of_planets` is an `int`: it is not above `INT_MAX`. -/
  number_of_planets_max : number_of_planets ≤ INT_MAX := by decide

variable {α : Type} [LinearOrderedField α]

/-- The values the globals are initialised with in the source. -/
def defaultConfig (α : Type) [LinearOrderedField α] : Config α where
  planetOrbitRadius := 1.9
  planetRadius := 0.5
  number_of_planets := 10
  contraction := 0.05
  planet_shaft_radius := 0.2
  step_size := 1

/-- The configuration `cfg` with `number_of_planets` set to `n`. -/
def Config.withPlanets (cfg : Config α) (n : Int) (hmin : INT_MIN ≤ n := by decide)
    (hmax : n ≤ INT_MAX := by decide) : Config α :=
  ⟨cfg.planetOrbitRadius, cfg.planetRadius, n, cfg.contraction, cfg.planet_shaft_radius,
    cfg.step_size, hmin, hmax⟩

/-- The configuration `cfg` with `contraction` set to `c`. -/
def Config.withContraction (cfg : Config α) (c : α) : Config α :=
  ⟨cfg.planetOrbitRadius, cfg.planetRadius, cfg.number_of_planets, c, cfg.planet_shaft_radius,
    cfg.step_size, cfg.number_of_planets_min, cfg.number_of_planets_max⟩

/-- The configuration `cfg` with `step_size` set to `step`. -/
def Config.withStep (cfg : Config α) (step : α) : Config α :=
  ⟨cfg.planetOrbitRadius, cfg.planetRadius, cfg.number_of_planets, cfg.contraction,
    cfg.planet_shaft_radius, step, cfg.number_of_planets_min, cfg.number_of_planets_max⟩

/-! ## Calculated values (lines 49-55) -/

/-- `int sunReductionRatio = number_of_planets - 1;` -/
def sunReductionRatio (cfg : Config α) : Int := wrapInt32 (cfg.number_of_planets - 1)

/-- `int frameReductionRatio = number_of_planets + 1;` -/
def frameReductionRatio (cfg : Config α) : Int := wrapInt32 (cfg.number_of_planets + 1)

/-- `double default_eccentricity = planetOrbitRadius / number_of_planets;` as a number: the
quotient the source computes when `number_of_planets ≠ 0`. -/
def default_eccentricity (cfg : Config α) : α :=
  cfg.planetOrbitRadius / (cfg.number_of_planets : α)

/-- `double sun_root_radius = sunReductionRatio * default_eccentricity;` -/
def sun_root_radius (cfg : Config α) : α :=
  (sunReductionRatio cfg : α) * default_eccentricity cfg

/-- `double frame_root_radius = frameReductionRatio * default_eccentricity;` -/
def frame_root_radius (cfg : Config α) : α :=
  (frameReductionRatio cfg : α) * default_eccentricity cfg

/-- `double trueEccentricity = default_eccentricity - contraction;` -/
def trueEccentricity (cfg : Config α) : α :=
  default_eccentricity cfg - cfg.contraction

/-! ## The curves (lines 57-78) -/

/-- The part of `<cmath>` the curves use, and the value of the literal written in
`degreesToRadians`. -/
structure MathEnv (α : Type) where
  /-- `cos` of `<cmath>`. -/
  cos : α → α
  /-- `sin` of `<cmath>`. -/
  sin : α → α
  /-- The value of the literal `3.141592653589793238463`. -/
  pi : α

/-- `return angle*(3.141592653589793238463/180.0);` -/
def degreesToRadians (E : MathEnv α) (angle : α) : α :=
  angle * (E.pi / 180)

/-- Given an angle, the x and y coordinate of the sun curve profile at that angle; the two
reference parameters `point_x`, `point_y` are returned as a pair. -/
def calculateSunCurve (E : MathEnv α) (cfg : Config α) (angle : α) : α × α :=
  let x := (sun_root_radius cfg + default_eccentricity cfg) * E.cos (degreesToRadians E angle)
  let y := (sun_root_radius cfg + default_eccentricity cfg) * E.sin (degreesToRadians E angle)
  (x + (default_eccentricity cfg - cfg.contraction)
        * E.cos ((cfg.number_of_planets : α) * degreesToRadians E angle),
   y + (default_eccentricity cfg - cfg.contraction)
        * E.sin ((cfg.number_of_planets : α) * degreesToRadians E angle))

/-- Given an angle, the x and y coordinate of the frame curve profile at that angle. -/
def calculateFrameCurve (E : MathEnv α) (cfg : Config α) (angle : α) : α × α :=
  let x := (frame_root_radius cfg - default_eccentricity cfg) * E.cos (degreesToRadians E angle)
  let y := (frame_root_radius cfg - default_eccentricity cfg) * E.sin (degreesToRadians E angle)
  (x + (default_eccentricity cfg - cfg.contraction)
        * E.cos ((cfg.number_of_planets : α) * degreesToRadians E (-angle)),
   y + (default_eccentricity cfg - cfg.contraction)
        * E.sin ((cfg.number_of_planets : α) * degreesToRadians E (-angle)))

/-- Rounding of a number to the nearest integer, a tie going to the even one. -/
def roundHalfEven [FloorRing α] (x : α) : ℤ :=
  if x - ⌊x⌋ < 1 / 2 then ⌊x⌋
  else if 1 / 2 < x - ⌊x⌋ then ⌊x⌋ + 1
  else if ⌊x⌋ % 2 = 0 then ⌊x⌋ else ⌊x⌋ + 1

/-- The exponent `e` with `2 ^ e ≤ |x| < 2 ^ (e + 1)` of a nonzero `x`, but not less than
`-1022`, the exponent of the smallest normal `double` (below it the `double`s are the
multiples of `2 ^ (-1074)`).  The value at `0` is immaterial: `0` is rounded to `0`. -/
def doubleExponent [FloorRing α] (x : α) : ℤ :=
  max (if 1 ≤ |x| then (Nat.log2 ⌊|x|⌋₊ : ℤ) else -((Nat.log2 (⌈|x|⁻¹⌉₊ - 1) : ℤ) + 1)) (-1022)

/-- Rounding of a number to `double` (IEEE 754 binary64, round to nearest, ties to even): the
nearest multiple of `2 ^ (e - 52)`, `e` the exponent of the number.  A result of magnitude
`2 ^ 1024` stands for an overflow to an infinity. -/
def roundDouble [FloorRing α] (x : α) : α :=
  (roundHalfEven (x / 2 ^ (doubleExponent x - 52)) : α) * 2 ^ (doubleExponent x - 52)

/-! ## The sampling loop of `run` (lines 182-191) -/

/-- `Point3D::create(x, y, z)`. -/
structure Point3D (α : Type) where
  /-- First coordinate. -/
  x : α
  /-- Second coordinate. -/
  y : α
  /-- Third coordinate. -/
  z : α

/-- `for (double angle{ 0.0 }; angle <= 360.0; angle = angle + step_size) body`, resumed at the
loop test with the current `angle` and the state `s` the body acts on.  The addition is the
`double` addition.  When the sum overflows to `+∞` the next test fails and the loop is left;
when it overflows to `-∞` every later test succeeds and the loop is never left.  The first
argument bounds the number of loop tests; `none` means the loop is still running when the
bound is used up. -/
def forAngle [FloorRing α] {β : Type} (step_size : α) (body : α → β → β) :
    Nat → α → β → Option β
  | 0, _, _ => none
  | fuel + 1, angle, s =>
    if angle ≤ 360 then
      if 2 ^ 1024 ≤ roundDouble (angle + step_size) then some (body angle s)
      else if roundDouble (angle + step_size) ≤ -2 ^ 1024 then none
      else forAngle step_size body fuel (roundDouble (angle + step_size)) (body angle s)
    else some s

/-- The body of the sampling loop, acting on the collections `sun_points` and `frame_points`:
`calculateSunCurve(angle, point_x, point_y); sun_points->add(Point3D::create(point_x, point_y, 0));`
`calculateFrameCurve(angle, point_x, point_y); frame_points->add(Point3D::create(point_x, point_y, 0));` -/
def samplingBody (E : MathEnv α) (cfg : Config α) (angle : α)
    (s : List (Point3D α) × List (Point3D α)) : List (Point3D α) × List (Point3D α) :=
  let p := calculateSunCurve E cfg angle
  let sun_points := s.1 ++ [Point3D.mk p.1 p.2 0]
  let q := calculateFrameCurve E cfg angle
  let frame_points := s.2 ++ [Point3D.mk q.1 q.2 0]
  (sun_points, frame_points)

/-- The sampling loop, started at `angle = 0.0` with both collections empty; the result is
`(sun_points, frame_points)` when the loop is left. -/
def samplingLoop [FloorRing α] (E : MathEnv α) (cfg : Config α) (fuel : Nat) :
    Option (List (Point3D α) × List (Point3D α)) :=
  forAngle cfg.step_size (samplingBody E cfg) fuel 0 ([], [])

/-- The angles at which the body of the sampling loop is executed, in order: the same loop
with a body that records `angle`. -/
def sampledAngles [FloorRing α] (step_size : α) (fuel : Nat) : Option (List α) :=
  forAngle step_size (fun angle l => l ++ [angle]) fuel 0 []

/-! ## `run` (lines 80-228) -/

/-- What the host application answers to `run`: for each object `run` requests, whether the
`Ptr` it gets is non-null (`true`) or null (`false`).  The fields are named after the local
variables of `run` that receive the objects. -/
structure Host where
  /-- `Application::get()`. -/
  app : Bool
  /-- `app->userInterface()`. -/
  ui : Bool
  /-- `app->activeProduct()`. -/
  design : Bool
  /-- `design->rootComponent()`. -/
  root_component : Bool
  /-- First `addNewComponent`. -/
  sun_occ : Bool
  /-- `sun_occ->component()`. -/
  sun_gear : Bool
  /-- Second `addNewComponent`. -/
  planet_occ : Bool
  /-- `planet_occ->component()`. -/
  planet_gear : Bool
  /-- Third `addNewComponent`. -/
  frame_occ : Bool
  /-- `frame_occ->component()`. -/
  frame : Bool
  /-- First `ObjectCollection::create()`. -/
  points : Bool
  /-- `sun_gear->sketches()`. -/
  sun_gear_sketches : Bool
  /-- `sun_gear->xYConstructionPlane()`. -/
  sun_gear_xy_plane : Bool
  /-- `sun_gear_sketches->add(sun_gear_xy_plane)`. -/
  sun_sketch : Bool
  /-- `frame->sketches()`. -/
  frame_sketches : Bool
  /-- `frame->xYConstructionPlane()`. -/
  frame_xy_plane : Bool
  /-- `frame_sketches->add(frame_xy_plane)`. -/
  frame_sketch : Bool
  /-- `planet_gear->sketches()`. -/
  planet_gear_sketches : Bool
  /-- `planet_gear->xYConstructionPlane()`. -/
  planet_gear_xy_plane : Bool
  /-- `planet_gear_sketches->add(planet_gear_xy_plane)`. -/
  planet_gear_sketch : Bool
  /-- Second `ObjectCollection::create()`. -/
  sun_points : Bool
  /-- Third `ObjectCollection::create()`. -/
  frame_points : Bool
  /-- `sketchFittedSplines()->add(sun_points)`. -/
  sun_spline : Bool
  /-- `sun_sketch->findConnectedCurves(sun_spline)`. -/
  sun_curves : Bool
  /-- `sun_sketch->offset(sun_curves, ..., planetRadius)`. -/
  sun_offset_curves : Bool
  /-- `sketchFittedSplines()->add(frame_points)`. -/
  frame_spline : Bool
  /-- `frame_sketch->findConnectedCurves(frame_spline)`. -/
  frame_curves : Bool
  /-- `frame_sketch->offset(frame_curves, ..., -planetRadius)`. -/
  frame_offset_curves : Bool

/-- The host that answers every request of `run` with a non-null object. -/
def Host.allNonNull : Host :=
  ⟨true, true, true, true, true, true, true, true, true, true, true, true, true, true,
   true, true, true, true, true, true, true, true, true, true, true, true, true, true⟩

/-- The calls of `run` that act on the host, in the order `run` makes them. -/
inductive Event (α : Type) where
  /-- `ui->messageBox(text)`. -/
  | messageBox (text : String)
  /-- `component->name(name)`. -/
  | name (name : String)
  /-- `sketch->sketchCurves()->sketchFittedSplines()->add(points)` on the named sketch. -/
  | fittedSpline (sketch : String) (points : List (Point3D α))
  /-- `sketch->findConnectedCurves(spline)` on the named sketch. -/
  | findConnectedCurves (sketch : String)
  /-- `sketch->offset(curves, Point3D::create(0, 0, 0), distance)` on the named sketch. -/
  | offset (sketch : String) (distance : α)
  /-- `design->deleteEntities(entities)`. -/
  | deleteEntities (entities : String)
  /-- `sketchCircles()->addByCenterRadius(center, radius)` on the planet gear sketch. -/
  | addByCenterRadius (center : Point3D α) (radius : α)

/-- Computations of `run`: they log host calls, stop early with the returned `bool`, and are
`none` when the sampling loop does not finish within the bound given to it. -/
abbrev RunM (α : Type) := ExceptT Bool (StateT (List (Event α)) Option)

/-- Record a call on the host. -/
def call (e : Event α) : RunM α Unit := modify (fun log => log ++ [e])

/-- The function `run`, statement by statement.  A `return b;` is `throw b`; an `if` without
braces governs the one statement that follows it, as in the source. -/
def run [FloorRing α] (E : MathEnv α) (cfg : Config α) (fuel : Nat) (host : Host) :
    RunM α Unit := do
  if !host.app then
    throw false
  if !host.ui then
    throw false
  if !host.design then
    call (.messageBox "Failed to get design!")
  throw false
  if !host.root_component then
    call (.messageBox "Failed to get root component!")
  throw false
  if !host.sun_occ then
    call (.messageBox "Failed to get sun occurence!")
  throw false
  if !host.sun_gear then
    call (.messageBox "Failed to make sun gear component!")
  throw false
  if !host.planet_occ then
    call (.messageBox "Failed to make planet occurence!")
  throw false
  if !host.planet_gear then
    call (.messageBox "Failed to make planet occurence!")
  throw false
  if !host.frame_occ then
    throw false
  if !host.frame then
    throw false
  call (.name "sun gear")
  call (.name "planet gear")
  call (.name "frame")
  if !host.points then
    throw false
  if !host.sun_gear_sketches then
    throw false
  if !host.sun_gear_xy_plane then
    throw false
  if !host.sun_sketch then
    throw false
  if !host.frame_sketches then
    throw false
  if !host.frame_xy_plane then
    throw false
  if !host.frame_sketch then
    throw false
  if !host.planet_gear_sketches then
    throw false
  if !host.planet_gear_xy_plane then
    throw false
  if !host.planet_gear_sketch then
    throw false
  if !host.sun_points then
    throw false
  if !host.frame_points then
    throw false
  let (sun_points, frame_points) ← (liftM (samplingLoop E cfg fuel) : RunM α _)
  call (.fittedSpline "sun" sun_points)
  if !host.sun_spline then
    throw false
  call (.findConnectedCurves "sun")
  if !host.sun_curves then
    throw false
  call (.offset "sun" cfg.planetRadius)
  if !host.sun_offset_curves then
    throw false
  call (.fittedSpline "frame" frame_points)
  if !host.frame_spline then
    throw false
  call (.findConnectedCurves "frame")
  if !host.frame_curves then
    throw false
  call (.offset "frame" (-cfg.planetRadius))
  if !host.frame_offset_curves then
    throw false
  call (.deleteEntities "frame_curves")
  call (.deleteEntities "sun_curves")
  call (.deleteEntities "frame_spline")
  call (.deleteEntities "sun_spline")
  call (.addByCenterRadius ⟨cfg.planetOrbitRadius + trueEccentricity cfg, 0, 0⟩ cfg.planetRadius)
  call (.addByCenterRadius ⟨cfg.planetOrbitRadius, 0, 0⟩ cfg.planet_shaft_radius)
  call (.messageBox "Finished generating gearbox profile")
  throw true

/-- The outcome of `run` started with an empty log: `some (Except.error b, log)` when `run`
executes `return b;` after the host calls `log`; `none` when `run` does not return within
the bound. -/
def runResult [FloorRing α] (E : MathEnv α) (cfg : Config α) (fuel : Nat) (host : Host) :
    Option (Except Bool Unit × List (Event α)) :=
  (run E cfg fuel host).run.run []

/-! ## Crossing a level -/

/-- The function `f` crosses the level `c` at `θ`: it takes the value `c` at `θ` and, near
`θ`, lies strictly on one side of `c` before `θ` and strictly on the other side after `θ`. -/
def CrossesAt (f : ℝ → ℝ) (c θ : ℝ) : Prop :=
  f θ = c ∧ ∃ δ : ℝ, 0 < δ ∧
    (((∀ x, θ - δ < x → x < θ → f x < c) ∧ (∀ x, θ < x → x < θ + δ → c < f x))
      ∨ ((∀ x, θ - δ < x → x < θ → c < f x) ∧ (∀ x, θ < x → x < θ + δ → f x < c)))

/-! ## Lemmas on the `double` addition -/

/-- An integer is rounded to itself. -/
theorem roundHalfEven_intCast [FloorRing α] (m : ℤ) : roundHalfEven (m : α) = m := by
  unfold roundHalfEven
  simp

/-- Every natural number below `2 ^ 53` is a `double`: rounding leaves it unchanged. -/
theorem roundDouble_natCast [FloorRing α] (k : ℕ) (hk : k < 2 ^ 53) :
    roundDouble (k : α) = k := by
  rcases Nat.eq_zero_or_pos k with h0 | hpos
  · subst h0
    simp [roundDouble, roundHalfEven]
  · have h1 : (1 : α) ≤ |(k : α)| := by
      rw [abs_of_nonneg (Nat.cast_nonneg k)]
      exact_mod_cast hpos
    have hL : Nat.log2 k < 53 := (Nat.log2_lt (by omega)).2 hk
    have he : doubleExponent (k : α) = (Nat.log2 k : ℤ) := by
      unfold doubleExponent
      rw [if_pos h1, abs_of_nonneg (Nat.cast_nonneg k), Nat.floor_natCast]
      exact max_eq_left (by omega)
    obtain ⟨d, hd⟩ : ∃ d : ℕ, (Nat.log2 k : ℤ) - 52 = -(d : ℤ) := ⟨52 - Nat.log2 k, by omega⟩
    have hcast : (k : α) * 2 ^ d = (((k * 2 ^ d : ℕ) : ℤ) : α) := by push_cast; ring
    rw [roundDouble, he, hd, zpow_neg, zpow_natCast, div_inv_eq_mul, hcast,
      roundHalfEven_intCast]
    push_cast
    field_simp

/-- The multiples of a natural number that stay below `2 ^ 53` are `double`s. -/
theorem roundDouble_natCast_mul [FloorRing α] (i k : ℕ) (h : i * k < 2 ^ 53) :
    roundDouble ((i : α) * (k : α)) = (i : α) * (k : α) := by
  have := roundDouble_natCast (α := α) (i * k) h
  push_cast at this
  exact this

/-! ## Lemmas on the sampling loop -/

/-- With a positive step whose additions are exact, a loop that has `m` iterations left
terminates within `m + 1` loop tests and has run its body at `angle`, `angle + step_size`,
... in this order. -/
theorem forAngle_eq_foldl [FloorRing α] {β : Type} (step_size : α) (body : α → β → β) :
    ∀ (m fuel : ℕ) (angle : α) (s : β), m < fuel →
      (∀ i : ℕ, i < m → angle + i * step_size ≤ 360) → 360 < angle + m * step_size →
      (∀ i : ℕ, 1 ≤ i → i ≤ m →
        roundDouble (angle + i * step_size) = angle + i * step_size) →
      (∀ i : ℕ, i ≤ m →
        -2 ^ 1024 < angle + i * step_size ∧ angle + i * step_size < 2 ^ 1024) →
      forAngle step_size body fuel angle s
        = some (List.foldl (fun s a => body a s) s
            ((List.range m).map (fun i : ℕ => angle + i * step_size))) := by
  intro m
  induction m with
  | zero =>
    intro fuel angle s hfuel _ hgt _ _
    obtain ⟨f, rfl⟩ : ∃ f, fuel = f + 1 := ⟨fuel - 1, by omega⟩
    have : ¬ angle ≤ 360 := by simpa using hgt
    simp [forAngle, this]
  | succ m ih =>
    intro fuel angle s hfuel hle hgt hexact hbound
    obtain ⟨f, rfl⟩ : ∃ f, fuel = f + 1 := ⟨fuel - 1, by omega⟩
    have h0 : angle ≤ 360 := by simpa using hle 0 (Nat.succ_pos m)
    have h1 : roundDouble (angle + step_size) = angle + step_size := by
      simpa using hexact 1 le_rfl (by omega)
    have hb1 : -2 ^ 1024 < angle + step_size ∧ angle + step_size < 2 ^ 1024 := by
      simpa using hbound 1 (by omega)
    have hshift : ∀ i : ℕ, angle + step_size + i * step_size
        = angle + ((i + 1 : ℕ) : α) * step_size := fun i => by push_cast; ring
    have hrec := ih f (angle + step_size) (body angle s) (by omega)
      (fun i hi => by rw [hshift]; exact hle (i + 1) (by omega))
      (by rw [hshift]; exact hgt)
      (fun i hi1 hi => by rw [hshift]; exact hexact (i + 1) (by omega) (by omega))
      (fun i hi => by rw [hshift]; exact hbound (i + 1) (by omega))
    rw [forAngle, if_pos h0, h1, if_neg (not_le.2 hb1.2), if_neg (not_le.2 hb1.1), hrec,
      List.range_succ_eq_map]
    simp only [List.map_cons, List.map_map, List.foldl_cons, Nat.cast_zero, zero_mul, add_zero]
    congr 3
    funext i
    simp only [Function.comp, Nat.cast_succ]
    ring

/-- With a positive step whose multiples up to the first one above 360 are `double`s, the
loop started at `0` runs its body at `i * step_size` for `i = 0, ..., ⌊360 / step_size⌋`, and
is left after `⌊360 / step_size⌋ + 2` loop tests. -/
theorem forAngle_zero [FloorRing α] {β : Type} (step_size : α) (hstep : 0 < step_size)
    (hle : step_size ≤ 360)
    (hexact : ∀ i : ℕ, i ≤ ⌊360 / step_size⌋₊ + 1 →
      roundDouble ((i : α) * step_size) = (i : α) * step_size)
    (body : α → β → β) (fuel : ℕ) (hfuel : ⌊360 / step_size⌋₊ + 2 ≤ fuel) (s : β) :
    forAngle step_size body fuel 0 s
      = some (List.foldl (fun s a => body a s) s
          ((List.range (⌊360 / step_size⌋₊ + 1)).map (fun i : ℕ => (i : α) * step_size))) := by
  have hfloor : (⌊360 / step_size⌋₊ : α) * step_size ≤ 360 :=
    (le_div_iff₀ hstep).1 (Nat.floor_le (by positivity))
  have h := forAngle_eq_foldl step_size body (⌊360 / step_size⌋₊ + 1) fuel 0 s (by omega)
    (fun i hi => by
      have h1 : (i : α) ≤ 360 / step_size :=
        (Nat.le_floor_iff (by positivity)).1 (by omega)
      rw [zero_add]
      exact (le_div_iff₀ hstep).1 h1)
    (by
      have h1 : 360 / step_size < ((⌊360 / step_size⌋₊ + 1 : ℕ) : α) := by
        exact_mod_cast Nat.lt_floor_add_one (360 / step_size)
      rw [zero_add]
      exact (div_lt_iff₀ hstep).1 h1)
    (fun i _ hi => by rw [zero_add]; exact hexact i hi)
    (fun i hi => by
      rw [zero_add]
      have hi' : (i : α) ≤ (⌊360 / step_size⌋₊ : α) + 1 := by exact_mod_cast hi
      have h0 : (0 : α) ≤ (i : α) * step_size := by positivity
      have h2 : (i : α) * step_size ≤ 720 := by nlinarith
      have h3 : (720 : α) < 2 ^ 1024 := by norm_num
      have h4 : (0 : α) < 2 ^ 1024 := by positivity
      constructor <;> linarith)
  simpa using h

/-- Recording the angles yields the list of the angles. -/
theorem foldl_record {β : Type} (l : List β) :
    ∀ s : List β, List.foldl (fun s a => s ++ [a]) s l = s ++ l := by
  induction l with
  | nil => intro s; simp
  | cons a l ih => intro s; simp [ih]

/-- For every configuration and every bound, the sampling loop adds to each sequence the
curve point at each angle at which the loop body runs, and at no other angle. -/
theorem forAngle_samplingBody [FloorRing α] (E : MathEnv α) (cfg : Config α) :
    ∀ (fuel : ℕ) (angle : α) (l : List α),
      forAngle cfg.step_size (samplingBody E cfg) fuel angle
          (l.map (fun a => Point3D.mk (calculateSunCurve E cfg a).1
              (calculateSunCurve E cfg a).2 0),
           l.map (fun a => Point3D.mk (calculateFrameCurve E cfg a).1
              (calculateFrameCurve E cfg a).2 0))
        = (forAngle cfg.step_size (fun angle l => l ++ [angle]) fuel angle l).map
            (fun l => (l.map (fun a => Point3D.mk (calculateSunCurve E cfg a).1
                (calculateSunCurve E cfg a).2 0),
              l.map (fun a => Point3D.mk (calculateFrameCurve E cfg a).1
                (calculateFrameCurve E cfg a).2 0))) := by
  intro fuel
  induction fuel with
  | zero => intro angle l; rfl
  | succ f ih =>
    intro angle l
    have hbody : samplingBody E cfg angle
        (l.map (fun a => Point3D.mk (calculateSunCurve E cfg a).1
            (calculateSunCurve E cfg a).2 0),
         l.map (fun a => Point3D.mk (calculateFrameCurve E cfg a).1
            (calculateFrameCurve E cfg a).2 0))
        = ((l ++ [angle]).map (fun a => Point3D.mk (calculateSunCurve E cfg a).1
            (calculateSunCurve E cfg a).2 0),
           (l ++ [angle]).map (fun a => Point3D.mk (calculateFrameCurve E cfg a).1
            (calculateFrameCurve E cfg a).2 0)) := by
      simp [samplingBody]
    rw [forAngle, forAngle, hbody]
    split_ifs
    · rfl
    · rfl
    · exact ih _ _
    · rfl

/-- For every configuration and every bound, the sampled points are the curve points at
the sampled angles. -/
theorem samplingLoop_eq_map [FloorRing α] (E : MathEnv α) (cfg : Config α) (fuel : ℕ) :
    samplingLoop E cfg fuel
      = (sampledAngles cfg.step_size fuel).map
          (fun l => (l.map (fun a => Point3D.mk (calculateSunCurve E cfg a).1
              (calculateSunCurve E cfg a).2 0),
            l.map (fun a => Point3D.mk (calculateFrameCurve E cfg a).1
              (calculateFrameCurve E cfg a).2 0))) :=
  forAngle_samplingBody E cfg fuel 0 []

/-- The angles sampled with a positive step whose multiples are `double`s. -/
theorem sampledAngles_eq [FloorRing α] (step_size : α) (hstep : 0 < step_size)
    (hle : step_size ≤ 360)
    (hexact : ∀ i : ℕ, i ≤ ⌊360 / step_size⌋₊ + 1 →
      roundDouble ((i : α) * step_size) = (i : α) * step_size)
    (fuel : ℕ) (hfuel : ⌊360 / step_size⌋₊ + 2 ≤ fuel) :
    sampledAngles step_size fuel
      = some ((List.range (⌊360 / step_size⌋₊ + 1)).map (fun i : ℕ => (i : α) * step_size)) := by
  rw [sampledAngles, forAngle_zero step_size hstep hle hexact _ fuel hfuel, foldl_record]
  simp

/-- The points sampled with a positive step whose multiples are `double`s: both curves
evaluated at the sampled angles. -/
theorem samplingLoop_eq [FloorRing α] (E : MathEnv α) (cfg : Config α)
    (hstep : 0 < cfg.step_size) (hle : cfg.step_size ≤ 360)
    (hexact : ∀ i : ℕ, i ≤ ⌊360 / cfg.step_size⌋₊ + 1 →
      roundDouble ((i : α) * cfg.step_size) = (i : α) * cfg.step_size)
    (fuel : ℕ) (hfuel : ⌊360 / cfg.step_size⌋₊ + 2 ≤ fuel) :
    samplingLoop E cfg fuel
      = some (((List.range (⌊360 / cfg.step_size⌋₊ + 1)).map
                (fun i : ℕ => (i : α) * cfg.step_size)).map
                (fun a => Point3D.mk (calculateSunCurve E cfg a).1
                  (calculateSunCurve E cfg a).2 0),
              ((List.range (⌊360 / cfg.step_size⌋₊ + 1)).map
                (fun i : ℕ => (i : α) * cfg.step_size)).map
                (fun a => Point3D.mk (calculateFrameCurve E cfg a).1
                  (calculateFrameCurve E cfg a).2 0)) := by
  rw [samplingLoop_eq_map, sampledAngles_eq cfg.step_size hstep hle hexact fuel hfuel]
  rfl

/-- If the loop is left, the first sampled angle is `0`. -/
theorem forAngle_record_head [FloorRing α] (step_size : α) :
    ∀ (fuel : ℕ) (angle : α) (l r : List α), l ≠ [] →
      forAngle step_size (fun angle l => l ++ [angle]) fuel angle l = some r →
      r.head? = l.head? := by
  intro fuel
  induction fuel with
  | zero => intro angle l r _ h; simp [forAngle] at h
  | succ f ih =>
    intro angle l r hl h
    have happ : (l ++ [angle]).head? = l.head? := by
      cases l with
      | nil => exact absurd rfl hl
      | cons a t => rfl
    rw [forAngle] at h
    split_ifs at h
    · rw [← Option.some.inj h, happ]
    · rw [ih _ _ _ (by simp) h, happ]
    · rw [← Option.some.inj h]

/-! ## Lemmas on the calculated values -/

/-- Wrapping is the identity on the range of `int`. -/
theorem wrapInt32_of_range (z : Int) (hlo : INT_MIN ≤ z) (hhi : z ≤ INT_MAX) :
    wrapInt32 z = z := by
  unfold INT_MIN at hlo
  unfold INT_MAX at hhi
  unfold wrapInt32
  omega

omit [LinearOrderedField α] in
/-- `sunReductionRatio` when `number_of_planets - 1` fits an `int`. -/
theorem sunReductionRatio_eq (cfg : Config α) (hlo : INT_MIN < cfg.number_of_planets) :
    sunReductionRatio cfg = cfg.number_of_planets - 1 := by
  have hhi := cfg.number_of_planets_max
  unfold INT_MIN at hlo
  unfold INT_MAX at hhi
  exact wrapInt32_of_range _ (by unfold INT_MIN; omega) (by unfold INT_MAX; omega)

omit [LinearOrderedField α] in
/-- `frameReductionRatio` when `number_of_planets + 1` fits an `int`. -/
theorem frameReductionRatio_eq (cfg : Config α) (hhi : cfg.number_of_planets < INT_MAX) :
    frameReductionRatio cfg = cfg.number_of_planets + 1 := by
  have hlo := cfg.number_of_planets_min
  unfold INT_MIN at hlo
  unfold INT_MAX at hhi
  exact wrapInt32_of_range _ (by unfold INT_MIN; omega) (by unfold INT_MAX; omega)

/-! ## C1: the calculated values -/

/-- C1, as stated, fails at the largest `int`: with `number_of_planets = 2147483647` (which is
not zero) `frameReductionRatio` is `-2147483648`, not `number_of_planets + 1`; no `int` holds
`2147483648`. -/
theorem frameReductionRatio_int_max :
    ((defaultConfig ℚ).withPlanets 2147483647).number_of_planets ≠ 0
    ∧ frameReductionRatio ((defaultConfig ℚ).withPlanets 2147483647)
        = -2147483648
    ∧ frameReductionRatio ((defaultConfig ℚ).withPlanets 2147483647)
        ≠ ((defaultConfig ℚ).withPlanets 2147483647).number_of_planets
          + 1 := by
  refine ⟨by decide, by decide, by decide⟩

/-- C1 (amended): for every configuration with `number_of_planets ≠ 0` for which
`number_of_planets - 1` and `number_of_planets + 1` fit an `int`, the calculated values equal
their closed forms: `sunReductionRatio = n - 1`, `frameReductionRatio = n + 1`,
`default_eccentricity = planetOrbitRadius / n`, `sun_root_radius = (n - 1) * (planetOrbitRadius / n)`,
`frame_root_radius = (n + 1) * (planetOrbitRadius / n)` and
`trueEccentricity = planetOrbitRadius / n - contraction`. -/
theorem derived_constants (cfg : Config α) (_h0 : cfg.number_of_planets ≠ 0)
    (hlo : INT_MIN < cfg.number_of_planets) (hhi : cfg.number_of_planets < INT_MAX) :
    sunReductionRatio cfg = cfg.number_of_planets - 1
    ∧ frameReductionRatio cfg = cfg.number_of_planets + 1
    ∧ default_eccentricity cfg = cfg.planetOrbitRadius / (cfg.number_of_planets : α)
    ∧ sun_root_radius cfg
        = ((cfg.number_of_planets : α) - 1) * (cfg.planetOrbitRadius / (cfg.number_of_planets : α))
    ∧ frame_root_radius cfg
        = ((cfg.number_of_planets : α) + 1) * (cfg.planetOrbitRadius / (cfg.number_of_planets : α))
    ∧ trueEccentricity cfg
        = cfg.planetOrbitRadius / (cfg.number_of_planets : α) - cfg.contraction := by
  have hs := sunReductionRatio_eq cfg hlo
  have hf := frameReductionRatio_eq cfg hhi
  refine ⟨hs, hf, rfl, ?_, ?_, rfl⟩
  · rw [sun_root_radius, hs, default_eccentricity]; push_cast; ring
  · rw [frame_root_radius, hf, default_eccentricity]; push_cast; ring

/-- C1, witness: the default configuration (`planetOrbitRadius = 1.9`, `number_of_planets = 10`,
`contraction = 0.05`) gives 9, 11, 0.19, 1.71, 2.09 and 0.14. -/
theorem derived_constants_default :
    (defaultConfig ℚ).number_of_planets ≠ 0
    ∧ INT_MIN < (defaultConfig ℚ).number_of_planets
    ∧ (defaultConfig ℚ).number_of_planets < INT_MAX
    ∧ sunReductionRatio (defaultConfig ℚ) = 9
    ∧ frameReductionRatio (defaultConfig ℚ) = 11
    ∧ default_eccentricity (defaultConfig ℚ) = 0.19
    ∧ sun_root_radius (defaultConfig ℚ) = 1.71
    ∧ frame_root_radius (defaultConfig ℚ) = 2.09
    ∧ trueEccentricity (defaultConfig ℚ) = 0.14 := by
  have h := derived_constants (defaultConfig ℚ) (by decide) (by decide) (by decide)
  obtain ⟨h1, h2, h3, h4, h5, h6⟩ := h
  refine ⟨by decide, by decide, by decide, ?_, ?_, ?_, ?_, ?_, ?_⟩
  · rw [h1]; rfl
  · rw [h2]; rfl
  · rw [h3]; norm_num [defaultConfig]
  · rw [h4]; norm_num [defaultConfig]
  · rw [h5]; norm_num [defaultConfig]
  · rw [h6]; norm_num [defaultConfig]

/-! ## C2, C3, C4: the curve formulas -/

/-- `degreesToRadians` with the literal taken as `π`. -/
theorem degreesToRadians_real (θ : ℝ) :
    degreesToRadians ⟨Real.cos, Real.sin, Real.pi⟩ θ = θ * (Real.pi / 180) := rfl

/-- The sine vanishes at the integer multiples of a full turn. -/
theorem sin_int_mul_two_pi (n : ℤ) : Real.sin ((n : ℝ) * (2 * Real.pi)) = 0 := by
  have h : (n : ℝ) * (2 * Real.pi) = ((2 * n : ℤ) : ℝ) * Real.pi := by push_cast; ring
  rw [h, Real.sin_int_mul_pi]

/-- The sun curve takes the same value at 0 and at 360 degrees. -/
theorem calculateSunCurve_360 (cfg : Config ℝ) :
    calculateSunCurve ⟨Real.cos, Real.sin, Real.pi⟩ cfg 360
      = calculateSunCurve ⟨Real.cos, Real.sin, Real.pi⟩ cfg 0 := by
  have e1 : (360 : ℝ) * (Real.pi / 180) = 2 * Real.pi := by ring
  simp only [calculateSunCurve, degreesToRadians, e1, zero_mul, mul_zero, Real.cos_zero,
    Real.sin_zero, Real.cos_two_pi, Real.sin_two_pi, Real.cos_int_mul_two_pi,
    sin_int_mul_two_pi]

/-- The frame curve takes the same value at 0 and at 360 degrees. -/
theorem calculateFrameCurve_360 (cfg : Config ℝ) :
    calculateFrameCurve ⟨Real.cos, Real.sin, Real.pi⟩ cfg 360
      = calculateFrameCurve ⟨Real.cos, Real.sin, Real.pi⟩ cfg 0 := by
  have e1 : (360 : ℝ) * (Real.pi / 180) = 2 * Real.pi := by ring
  have e3 : (cfg.number_of_planets : ℝ) * (-360 * (Real.pi / 180))
      = -((cfg.number_of_planets : ℝ) * (2 * Real.pi)) := by ring
  simp only [calculateFrameCurve, degreesToRadians, e1, e3, neg_zero, zero_mul, mul_zero,
    Real.cos_zero, Real.sin_zero, Real.cos_two_pi, Real.sin_two_pi, Real.cos_neg, Real.sin_neg,
    Real.cos_int_mul_two_pi, sin_int_mul_two_pi, neg_zero]

/-- C2: for every valid configuration (`number_of_planets ≥ 2`,
`0 ≤ contraction < default_eccentricity`) the curves close, `calculateSunCurve(0) =
calculateSunCurve(360)` and `calculateFrameCurve(0) = calculateFrameCurve(360)`, with the
degree-to-radian factor taken as exactly `π / 180` over the reals. -/
theorem curves_close (cfg : Config ℝ) (_hn : 2 ≤ cfg.number_of_planets)
    (_hc0 : 0 ≤ cfg.contraction) (_hc : cfg.contraction < default_eccentricity cfg) :
    calculateSunCurve ⟨Real.cos, Real.sin, Real.pi⟩ cfg 0
      = calculateSunCurve ⟨Real.cos, Real.sin, Real.pi⟩ cfg 360
    ∧ calculateFrameCurve ⟨Real.cos, Real.sin, Real.pi⟩ cfg 0
      = calculateFrameCurve ⟨Real.cos, Real.sin, Real.pi⟩ cfg 360 :=
  ⟨(calculateSunCurve_360 cfg).symm, (calculateFrameCurve_360 cfg).symm⟩

/-- C2, witness: the minimum case `number_of_planets = 2`. -/
theorem curves_close_two_planets :
    calculateSunCurve ⟨Real.cos, Real.sin, Real.pi⟩
        ((defaultConfig ℝ).withPlanets 2) 0
      = calculateSunCurve ⟨Real.cos, Real.sin, Real.pi⟩
        ((defaultConfig ℝ).withPlanets 2) 360
    ∧ calculateFrameCurve ⟨Real.cos, Real.sin, Real.pi⟩
        ((defaultConfig ℝ).withPlanets 2) 0
      = calculateFrameCurve ⟨Real.cos, Real.sin, Real.pi⟩
        ((defaultConfig ℝ).withPlanets 2) 360 :=
  curves_close ((defaultConfig ℝ).withPlanets 2)
    (by decide) (by norm_num [defaultConfig, Config.withPlanets])
    (by norm_num [default_eccentricity, defaultConfig, Config.withPlanets])

/-- C3: for every configuration and every angle `θ` in degrees, with `t = θ * (π / 180)`,
`n = number_of_planets` and `e = default_eccentricity - contraction`:
`calculateSunCurve(θ) = ((sun_root_radius + default_eccentricity) cos t + e cos (n t),
(sun_root_radius + default_eccentricity) sin t + e sin (n t))` and
`calculateFrameCurve(θ) = ((frame_root_radius - default_eccentricity) cos t + e cos (n t),
(frame_root_radius - default_eccentricity) sin t - e sin (n t))`; the frame's offset is the
sun's offset taken at the angle `n * (-t)`. -/
theorem curve_formulas (cfg : Config ℝ) (θ : ℝ) :
    calculateSunCurve ⟨Real.cos, Real.sin, Real.pi⟩ cfg θ
      = ((sun_root_radius cfg + default_eccentricity cfg) * Real.cos (θ * (Real.pi / 180))
          + (default_eccentricity cfg - cfg.contraction)
            * Real.cos ((cfg.number_of_planets : ℝ) * (θ * (Real.pi / 180))),
         (sun_root_radius cfg + default_eccentricity cfg) * Real.sin (θ * (Real.pi / 180))
          + (default_eccentricity cfg - cfg.contraction)
            * Real.sin ((cfg.number_of_planets : ℝ) * (θ * (Real.pi / 180))))
    ∧ calculateFrameCurve ⟨Real.cos, Real.sin, Real.pi⟩ cfg θ
      = ((frame_root_radius cfg - default_eccentricity cfg) * Real.cos (θ * (Real.pi / 180))
          + (default_eccentricity cfg - cfg.contraction)
            * Real.cos ((cfg.number_of_planets : ℝ) * (θ * (Real.pi / 180))),
         (frame_root_radius cfg - default_eccentricity cfg) * Real.sin (θ * (Real.pi / 180))
          - (default_eccentricity cfg - cfg.contraction)
            * Real.sin ((cfg.number_of_planets : ℝ) * (θ * (Real.pi / 180))))
    ∧ calculateFrameCurve ⟨Real.cos, Real.sin, Real.pi⟩ cfg θ
      = ((frame_root_radius cfg - default_eccentricity cfg) * Real.cos (θ * (Real.pi / 180))
          + (default_eccentricity cfg - cfg.contraction)
            * Real.cos ((cfg.number_of_planets : ℝ) * (-(θ * (Real.pi / 180)))),
         (frame_root_radius cfg - default_eccentricity cfg) * Real.sin (θ * (Real.pi / 180))
          + (default_eccentricity cfg - cfg.contraction)
            * Real.sin ((cfg.number_of_planets : ℝ) * (-(θ * (Real.pi / 180))))) := by
  have e : ∀ x : ℝ, -x * (Real.pi / 180) = -(x * (Real.pi / 180)) := fun x => by ring
  refine ⟨rfl, ?_, ?_⟩
  · simp only [calculateFrameCurve, degreesToRadians, e, mul_neg, Real.cos_neg, Real.sin_neg,
      sub_eq_add_neg]
  · simp only [calculateFrameCurve, degreesToRadians, e]

/-- The sun curve at angle 0. -/
theorem calculateSunCurve_zero (cfg : Config ℝ) :
    calculateSunCurve ⟨Real.cos, Real.sin, Real.pi⟩ cfg 0
      = (sun_root_radius cfg + default_eccentricity cfg + trueEccentricity cfg, 0) := by
  simp only [calculateSunCurve, degreesToRadians, trueEccentricity, zero_mul, mul_zero,
    Real.cos_zero, Real.sin_zero, mul_one, add_zero]

/-- Squared radial distance of a point `R (cos t, sin t) + e (cos (-s), sin (-s))`. -/
theorem sq_dist_opposite (R e t s : ℝ) :
    (R * Real.cos t + e * Real.cos (-s)) ^ 2 + (R * Real.sin t + e * Real.sin (-s)) ^ 2
      = R ^ 2 + e ^ 2 + 2 * R * e * Real.cos (s + t) := by
  rw [Real.cos_neg, Real.sin_neg, Real.cos_add]
  have h1 := Real.sin_sq_add_cos_sq t
  have h2 := Real.sin_sq_add_cos_sq s
  linear_combination R ^ 2 * h1 + e ^ 2 * h2

/-- Squared radial distance of a point `R (cos t, sin t) + e (cos s, sin s)`. -/
theorem sq_dist_same (R e t s : ℝ) :
    (R * Real.cos t + e * Real.cos s) ^ 2 + (R * Real.sin t + e * Real.sin s) ^ 2
      = R ^ 2 + e ^ 2 + 2 * R * e * Real.cos (s - t) := by
  rw [Real.cos_sub]
  have h1 := Real.sin_sq_add_cos_sq t
  have h2 := Real.sin_sq_add_cos_sq s
  linear_combination R ^ 2 * h1 + e ^ 2 * h2

/-- With `0 ≤ e ≤ R` and `c` a cosine, the third side `√(R² + e² + 2 R e c)` of the triangle
lies between `R - e` and `R + e`. -/
theorem sqrt_third_side_bounds (R e c : ℝ) (he : 0 ≤ e) (hRe : e ≤ R) (h1 : -1 ≤ c)
    (h2 : c ≤ 1) :
    R - e ≤ Real.sqrt (R ^ 2 + e ^ 2 + 2 * R * e * c)
    ∧ Real.sqrt (R ^ 2 + e ^ 2 + 2 * R * e * c) ≤ R + e := by
  have hRe0 : 0 ≤ R * e := mul_nonneg (by linarith) he
  constructor
  · apply Real.le_sqrt_of_sq_le
    nlinarith [mul_nonneg hRe0 (by linarith : (0 : ℝ) ≤ c + 1)]
  · rw [Real.sqrt_le_left (by linarith)]
    nlinarith [mul_nonneg hRe0 (by linarith : (0 : ℝ) ≤ 1 - c)]

/-- Squared radial distance of the frame curve: the law of cosines at the angle
`(number_of_planets + 1) t`. -/
theorem frame_sq_dist (cfg : Config ℝ) (θ : ℝ) :
    (calculateFrameCurve ⟨Real.cos, Real.sin, Real.pi⟩ cfg θ).1 ^ 2
      + (calculateFrameCurve ⟨Real.cos, Real.sin, Real.pi⟩ cfg θ).2 ^ 2
      = (frame_root_radius cfg - default_eccentricity cfg) ^ 2 + trueEccentricity cfg ^ 2
        + 2 * (frame_root_radius cfg - default_eccentricity cfg) * trueEccentricity cfg
          * Real.cos (((cfg.number_of_planets : ℝ) + 1) * (θ * (Real.pi / 180))) := by
  have e : (cfg.number_of_planets : ℝ) * (-θ * (Real.pi / 180))
      = -((cfg.number_of_planets : ℝ) * (θ * (Real.pi / 180))) := by ring
  simp only [calculateFrameCurve, degreesToRadians, trueEccentricity, e]
  rw [sq_dist_opposite]
  congr 3
  ring

/-- For a valid configuration whose `number_of_planets + 1` fits an `int`, the radius of the
frame's base circle is `number_of_planets * default_eccentricity`, and it is at least the
true eccentricity, which is positive. -/
theorem frame_base_radius (cfg : Config ℝ) (hn : 2 ≤ cfg.number_of_planets)
    (hmax : cfg.number_of_planets < INT_MAX) (hc0 : 0 ≤ cfg.contraction)
    (hc : cfg.contraction < default_eccentricity cfg) :
    0 < trueEccentricity cfg
    ∧ trueEccentricity cfg ≤ frame_root_radius cfg - default_eccentricity cfg := by
  have hf := frameReductionRatio_eq cfg hmax
  have hn' : (2 : ℝ) ≤ (cfg.number_of_planets : ℝ) := by exact_mod_cast hn
  have hd : 0 < default_eccentricity cfg := lt_of_le_of_lt hc0 hc
  have hR : frame_root_radius cfg - default_eccentricity cfg
      = (cfg.number_of_planets : ℝ) * default_eccentricity cfg := by
    rw [frame_root_radius, hf]; push_cast; ring
  constructor
  · unfold trueEccentricity; linarith
  · rw [hR]; unfold trueEccentricity; nlinarith

/-- C5, as stated, fails at the largest `int`: with `number_of_planets = 2147483647`,
`planetOrbitRadius = 2147483647` and `contraction = 0` (a valid configuration, with
`default_eccentricity = 1`) `frameReductionRatio` is `-2147483648`, the stated maximum
`(frame_root_radius - default_eccentricity) + trueEccentricity` is negative, and the point at
angle 0 lies farther from the origin. -/
theorem frame_radial_distance_int_max :
    2 ≤ (Config.mk (2147483647 : ℝ) 0.5 2147483647 0 0.2 1).number_of_planets
    ∧ 0 ≤ (Config.mk (2147483647 : ℝ) 0.5 2147483647 0 0.2 1).contraction
    ∧ (Config.mk (2147483647 : ℝ) 0.5 2147483647 0 0.2 1).contraction
        < default_eccentricity (Config.mk (2147483647 : ℝ) 0.5 2147483647 0 0.2 1)
    ∧ ¬ Real.sqrt
          ((calculateFrameCurve ⟨Real.cos, Real.sin, Real.pi⟩
              (Config.mk (2147483647 : ℝ) 0.5 2147483647 0 0.2 1) 0).1 ^ 2
            + (calculateFrameCurve ⟨Real.cos, Real.sin, Real.pi⟩
              (Config.mk (2147483647 : ℝ) 0.5 2147483647 0 0.2 1) 0).2 ^ 2)
        ≤ (frame_root_radius (Config.mk (2147483647 : ℝ) 0.5 2147483647 0 0.2 1)
            - default_eccentricity (Config.mk (2147483647 : ℝ) 0.5 2147483647 0 0.2 1))
          + trueEccentricity (Config.mk (2147483647 : ℝ) 0.5 2147483647 0 0.2 1) := by
  have hfr : frameReductionRatio (Config.mk (2147483647 : ℝ) 0.5 2147483647 0 0.2 1)
      = -2147483648 := by decide
  refine ⟨by decide, by norm_num, by norm_num [default_eccentricity], ?_⟩
  have hneg : (frame_root_radius (Config.mk (2147483647 : ℝ) 0.5 2147483647 0 0.2 1)
            - default_eccentricity (Config.mk (2147483647 : ℝ) 0.5 2147483647 0 0.2 1))
          + trueEccentricity (Config.mk (2147483647 : ℝ) 0.5 2147483647 0 0.2 1) < 0 := by
    rw [frame_root_radius, hfr]
    norm_num [default_eccentricity, trueEccentricity]
  intro h
  linarith [Real.sqrt_nonneg
    ((calculateFrameCurve ⟨Real.cos, Real.sin, Real.pi⟩
        (Config.mk (2147483647 : ℝ) 0.5 2147483647 0 0.2 1) 0).1 ^ 2
      + (calculateFrameCurve ⟨Real.cos, Real.sin, Real.pi⟩
        (Config.mk (2147483647 : ℝ) 0.5 2147483647 0 0.2 1) 0).2 ^ 2)]

/-- C5 (amended): for every valid configuration whose `number_of_planets + 1` fits an `int`
(`number_of_planets < 2147483647`), over a full sweep `θ ∈ [0, 360]` the radial distance of
`calculateFrameCurve(θ)` from the origin has maximum exactly
`(frame_root_radius - default_eccentricity) + trueEccentricity` and minimum exactly
`(frame_root_radius - default_eccentricity) - trueEccentricity`: every point satisfies both
bounds and each bound is attained at some `θ` of the sweep. -/
theorem frame_radial_distance (cfg : Config ℝ) (hn : 2 ≤ cfg.number_of_planets)
    (hmax : cfg.number_of_planets < INT_MAX) (hc0 : 0 ≤ cfg.contraction)
    (hc : cfg.contraction < default_eccentricity cfg) :
    (∀ θ : ℝ, 0 ≤ θ → θ ≤ 360 →
      (frame_root_radius cfg - default_eccentricity cfg) - trueEccentricity cfg
        ≤ Real.sqrt ((calculateFrameCurve ⟨Real.cos, Real.sin, Real.pi⟩ cfg θ).1 ^ 2
            + (calculateFrameCurve ⟨Real.cos, Real.sin, Real.pi⟩ cfg θ).2 ^ 2)
      ∧ Real.sqrt ((calculateFrameCurve ⟨Real.cos, Real.sin, Real.pi⟩ cfg θ).1 ^ 2
            + (calculateFrameCurve ⟨Real.cos, Real.sin, Real.pi⟩ cfg θ).2 ^ 2)
        ≤ (frame_root_radius cfg - default_eccentricity cfg) + trueEccentricity cfg)
    ∧ (∃ θ : ℝ, 0 ≤ θ ∧ θ ≤ 360 ∧
        Real.sqrt ((calculateFrameCurve ⟨Real.cos, Real.sin, Real.pi⟩ cfg θ).1 ^ 2
            + (calculateFrameCurve ⟨Real.cos, Real.sin, Real.pi⟩ cfg θ).2 ^ 2)
          = (frame_root_radius cfg - default_eccentricity cfg) + trueEccentricity cfg)
    ∧ (∃ θ : ℝ, 0 ≤ θ ∧ θ ≤ 360 ∧
        Real.sqrt ((calculateFrameCurve ⟨Real.cos, Real.sin, Real.pi⟩ cfg θ).1 ^ 2
            + (calculateFrameCurve ⟨Real.cos, Real.sin, Real.pi⟩ cfg θ).2 ^ 2)
          = (frame_root_radius cfg - default_eccentricity cfg) - trueEccentricity cfg) := by
  obtain ⟨he, hRe⟩ := frame_base_radius cfg hn hmax hc0 hc
  have hn' : (2 : ℝ) ≤ (cfg.number_of_planets : ℝ) := by exact_mod_cast hn
  refine ⟨?_, ?_, ?_⟩
  · intro θ _ _
    rw [frame_sq_dist]
    exact sqrt_third_side_bounds _ _ _ he.le hRe (Real.neg_one_le_cos _) (Real.cos_le_one _)
  · refine ⟨0, le_refl 0, by norm_num, ?_⟩
    rw [frame_sq_dist, zero_mul, mul_zero, Real.cos_zero]
    rw [show (frame_root_radius cfg - default_eccentricity cfg) ^ 2 + trueEccentricity cfg ^ 2
          + 2 * (frame_root_radius cfg - default_eccentricity cfg) * trueEccentricity cfg * 1
        = ((frame_root_radius cfg - default_eccentricity cfg) + trueEccentricity cfg) ^ 2
      by ring]
    exact Real.sqrt_sq (by linarith)
  · have hpos : (0 : ℝ) < (cfg.number_of_planets : ℝ) + 1 := by linarith
    refine ⟨180 / ((cfg.number_of_planets : ℝ) + 1), by positivity, ?_, ?_⟩
    · rw [div_le_iff₀ hpos]; nlinarith
    · have harg : ((cfg.number_of_planets : ℝ) + 1)
          * (180 / ((cfg.number_of_planets : ℝ) + 1) * (Real.pi / 180)) = Real.pi := by
        field_simp
        ring
      rw [frame_sq_dist, harg, Real.cos_pi]
      rw [show (frame_root_radius cfg - default_eccentricity cfg) ^ 2 + trueEccentricity cfg ^ 2
            + 2 * (frame_root_radius cfg - default_eccentricity cfg) * trueEccentricity cfg * -1
          = ((frame_root_radius cfg - default_eccentricity cfg) - trueEccentricity cfg) ^ 2
        by ring]
      exact Real.sqrt_sq (by linarith)

/-- C5, witness: the default configuration. -/
theorem frame_radial_distance_default :
    (∀ θ : ℝ, 0 ≤ θ → θ ≤ 360 →
      (frame_root_radius (defaultConfig ℝ) - default_eccentricity (defaultConfig ℝ))
          - trueEccentricity (defaultConfig ℝ)
        ≤ Real.sqrt
            ((calculateFrameCurve ⟨Real.cos, Real.sin, Real.pi⟩ (defaultConfig ℝ) θ).1 ^ 2
            + (calculateFrameCurve ⟨Real.cos, Real.sin, Real.pi⟩ (defaultConfig ℝ) θ).2 ^ 2)
      ∧ Real.sqrt
            ((calculateFrameCurve ⟨Real.cos, Real.sin, Real.pi⟩ (defaultConfig ℝ) θ).1 ^ 2
            + (calculateFrameCurve ⟨Real.cos, Real.sin, Real.pi⟩ (defaultConfig ℝ) θ).2 ^ 2)
        ≤ (frame_root_radius (defaultConfig ℝ) - default_eccentricity (defaultConfig ℝ))
          + trueEccentricity (defaultConfig ℝ))
    ∧ (∃ θ : ℝ, 0 ≤ θ ∧ θ ≤ 360 ∧
        Real.sqrt
            ((calculateFrameCurve ⟨Real.cos, Real.sin, Real.pi⟩ (defaultConfig ℝ) θ).1 ^ 2
            + (calculateFrameCurve ⟨Real.cos, Real.sin, Real.pi⟩ (defaultConfig ℝ) θ).2 ^ 2)
          = (frame_root_radius (defaultConfig ℝ) - default_eccentricity (defaultConfig ℝ))
            + trueEccentricity (defaultConfig ℝ))
    ∧ (∃ θ : ℝ, 0 ≤ θ ∧ θ ≤ 360 ∧
        Real.sqrt
            ((calculateFrameCurve ⟨Real.cos, Real.sin, Real.pi⟩ (defaultConfig ℝ) θ).1 ^ 2
            + (calculateFrameCurve ⟨Real.cos, Real.sin, Real.pi⟩ (defaultConfig ℝ) θ).2 ^ 2)
          = (frame_root_radius (defaultConfig ℝ) - default_eccentricity (defaultConfig ℝ))
            - trueEccentricity (defaultConfig ℝ)) :=
  frame_radial_distance (defaultConfig ℝ) (by decide) (by decide)
    (by norm_num [defaultConfig]) (by norm_num [default_eccentricity, defaultConfig])

/-! ## C6: the lobes of the sun curve -/

/-- On `[0, m * 2π)` the cosine takes the value `cos a`, `0 < a < π`, exactly at
`a + j * 2π` and `(j + 1) * 2π - a` for `j < m`. -/
theorem cos_eq_cos_on_turns (a : ℝ) (ha0 : 0 < a) (haπ : a < Real.pi) (m : ℕ) (u : ℝ)
    (hu0 : 0 ≤ u) (hu1 : u < m * (2 * Real.pi)) :
    Real.cos u = Real.cos a
      ↔ ∃ j : ℕ, j < m ∧ (u = a + j * (2 * Real.pi) ∨ u = (j + 1) * (2 * Real.pi) - a) := by
  have hπ := Real.pi_pos
  constructor
  · intro h
    obtain ⟨k, hk | hk⟩ := Real.cos_eq_cos_iff.1 h.symm
    · -- u = 2 k π + a
      have hk0 : 0 ≤ k := by
        by_contra hneg
        have : (k : ℝ) ≤ -1 := by exact_mod_cast (by omega : k ≤ -1)
        nlinarith
      have hkm : k < m := by
        by_contra hge
        have : (m : ℝ) ≤ (k : ℝ) := by exact_mod_cast (by omega : (m : ℤ) ≤ k)
        nlinarith
      obtain ⟨j, rfl⟩ := Int.eq_ofNat_of_zero_le hk0
      refine ⟨j, by exact_mod_cast hkm, Or.inl ?_⟩
      rw [hk]; push_cast; ring
    · -- u = 2 k π - a
      have hk1 : 1 ≤ k := by
        by_contra hneg
        have : (k : ℝ) ≤ 0 := by exact_mod_cast (by omega : k ≤ 0)
        nlinarith
      have hkm : k ≤ m := by
        by_contra hge
        have : (m : ℝ) + 1 ≤ (k : ℝ) := by exact_mod_cast (by omega : (m : ℤ) + 1 ≤ k)
        nlinarith
      obtain ⟨j, hj⟩ := Int.eq_ofNat_of_zero_le (by omega : 0 ≤ k - 1)
      have hkj : (k : ℝ) = (j : ℝ) + 1 := by
        have : k = (j : ℤ) + 1 := by omega
        rw [this]; push_cast; ring
      refine ⟨j, by omega, Or.inr ?_⟩
      rw [hk, hkj]; ring
  · rintro ⟨j, _, h | h⟩
    · rw [h, Real.cos_add_nat_mul_two_pi]
    · rw [h]
      have := Real.cos_nat_mul_two_pi_sub a (j + 1)
      push_cast at this
      exact this


/-- The level set of `θ ↦ cos (m θ π / 180)` at `-κ`, `0 < κ < 1`, in `[0, 360)` has `2 m`
points. -/
theorem cos_level_ncard (m : ℕ) (hm : 0 < m) (κ : ℝ) (h0 : 0 < κ) (h1 : κ < 1) :
    {θ : ℝ | 0 ≤ θ ∧ θ < 360 ∧ Real.cos ((m : ℝ) * (θ * (Real.pi / 180))) = -κ}.ncard
      = 2 * m := by
  have hπ := Real.pi_pos
  have hm' : (0 : ℝ) < m := by exact_mod_cast hm
  have hcos : Real.cos (Real.arccos (-κ)) = -κ := Real.cos_arccos (by linarith) (by linarith)
  have ha0 : 0 < Real.arccos (-κ) := Real.arccos_pos.2 (by linarith)
  have haπ : Real.arccos (-κ) < Real.pi :=
    lt_of_le_of_ne (Real.arccos_le_pi _) (fun h => by rw [Real.arccos_eq_pi] at h; linarith)
  generalize Real.arccos (-κ) = a at hcos ha0 haπ
  have hs : (0 : ℝ) < 180 / (Real.pi * m) := by positivity
  have hset : {θ : ℝ | 0 ≤ θ ∧ θ < 360 ∧ Real.cos ((m : ℝ) * (θ * (Real.pi / 180))) = -κ}
      = ↑((Finset.range m).image (fun j : ℕ => (a + j * (2 * Real.pi)) * (180 / (Real.pi * m)))
          ∪ (Finset.range m).image
              (fun j : ℕ => ((j + 1) * (2 * Real.pi) - a) * (180 / (Real.pi * m)))) := by
    ext θ
    simp only [Set.mem_setOf_eq, Finset.coe_union, Finset.coe_image, Finset.coe_range,
      Set.mem_union, Set.mem_image, Set.mem_Iio]
    have hθ : ∀ u : ℝ, u * (180 / (Real.pi * m)) = θ ↔ (m : ℝ) * (θ * (Real.pi / 180)) = u := by
      intro u
      constructor
      · intro h; rw [← h]; field_simp; ring
      · intro h; rw [← h]; field_simp; ring
    constructor
    · rintro ⟨hθ0, hθ1, hc⟩
      rw [← hcos] at hc
      have hu0 : 0 ≤ (m : ℝ) * (θ * (Real.pi / 180)) := by positivity
      have hu1 : (m : ℝ) * (θ * (Real.pi / 180)) < m * (2 * Real.pi) := by
        apply mul_lt_mul_of_pos_left _ hm'
        nlinarith
      obtain ⟨j, hj, h | h⟩ := (cos_eq_cos_on_turns a ha0 haπ m _ hu0 hu1).1 hc
      · exact Or.inl ⟨j, hj, (hθ _).2 h⟩
      · exact Or.inr ⟨j, hj, (hθ _).2 h⟩
    · have key : ∀ u : ℝ, 0 ≤ u → u < m * (2 * Real.pi) → Real.cos u = Real.cos a →
          (m : ℝ) * (θ * (Real.pi / 180)) = u →
          0 ≤ θ ∧ θ < 360 ∧ Real.cos ((m : ℝ) * (θ * (Real.pi / 180))) = -κ := by
        intro u hu0 hu1 hc hu
        have hθu : θ = u * (180 / (Real.pi * m)) := ((hθ u).2 hu).symm
        refine ⟨by rw [hθu]; positivity, ?_, by rw [hu, hc, hcos]⟩
        rw [hθu, ← lt_div_iff₀ hs]
        calc u < m * (2 * Real.pi) := hu1
          _ = 360 / (180 / (Real.pi * m)) := by field_simp; ring
      have hjm : ∀ j : ℕ, j < m → (j : ℝ) + 1 ≤ m := fun j hj => by exact_mod_cast hj
      rintro (⟨j, hj, h⟩ | ⟨j, hj, h⟩)
      · have hj' := hjm j hj
        exact key _ (by positivity) (by nlinarith)
          ((cos_eq_cos_on_turns a ha0 haπ m _ (by positivity) (by nlinarith)).2
            ⟨j, hj, Or.inl rfl⟩) ((hθ _).1 h)
      · have hj' := hjm j hj
        have hj0 : (0 : ℝ) ≤ j := Nat.cast_nonneg j
        exact key _ (by nlinarith) (by nlinarith)
          ((cos_eq_cos_on_turns a ha0 haπ m _ (by nlinarith) (by nlinarith)).2
            ⟨j, hj, Or.inr rfl⟩) ((hθ _).1 h)
  rw [hset, Set.ncard_coe_Finset, Finset.card_union_of_disjoint, Finset.card_image_of_injective,
    Finset.card_image_of_injective, Finset.card_range]
  · ring
  · intro j j' h
    have h' := mul_right_cancel₀ hs.ne' h
    have : (j : ℝ) = j' := by nlinarith
    exact_mod_cast this
  · intro j j' h
    have h' := mul_right_cancel₀ hs.ne' h
    have : (j : ℝ) = j' := by nlinarith
    exact_mod_cast this
  · rw [Finset.disjoint_left]
    intro x hx hx'
    simp only [Finset.mem_image, Finset.mem_range] at hx hx'
    obtain ⟨j, _, rfl⟩ := hx
    obtain ⟨j', _, h⟩ := hx'
    have h' := mul_right_cancel₀ hs.ne' h
    have ha : a = ((j' : ℤ) + 1 - j : ℤ) * Real.pi := by push_cast; linarith
    rcases le_or_lt ((j' : ℤ) + 1 - j) 0 with hd | hd
    · have : (((j' : ℤ) + 1 - j : ℤ) : ℝ) ≤ 0 := by exact_mod_cast hd
      nlinarith
    · have : (1 : ℝ) ≤ (((j' : ℤ) + 1 - j : ℤ) : ℝ) := by exact_mod_cast hd
      nlinarith


/-- Crossing is invariant under a change of scale that preserves the sides of the level. -/
theorem CrossesAt.congr {f g : ℝ → ℝ} {c c' θ : ℝ} (hlt : ∀ x, f x < c ↔ g x < c')
    (hgt : ∀ x, c < f x ↔ c' < g x) (h : CrossesAt g c' θ) : CrossesAt f c θ := by
  obtain ⟨heq, δ, hδ, hside⟩ := h
  refine ⟨?_, δ, hδ, ?_⟩
  · rcases lt_trichotomy (f θ) c with h1 | h1 | h1
    · exact absurd heq (ne_of_lt ((hlt θ).1 h1))
    · exact h1
    · exact absurd heq (ne_of_gt ((hgt θ).1 h1))
  · rcases hside with ⟨h1, h2⟩ | ⟨h1, h2⟩
    · exact Or.inl ⟨fun x hx hx' => (hlt x).2 (h1 x hx hx'), fun x hx hx' => (hgt x).2 (h2 x hx hx')⟩
    · exact Or.inr ⟨fun x hx hx' => (hgt x).2 (h1 x hx hx'), fun x hx hx' => (hlt x).2 (h2 x hx hx')⟩

/-- The function `θ ↦ cos (m θ π / 180)` crosses the level `cos a`, `0 < a < π`, at every
point where it takes this value. -/
theorem cos_crossesAt (m : ℕ) (hm : 0 < m) (a : ℝ) (ha0 : 0 < a) (haπ : a < Real.pi) (θ : ℝ)
    (j : ℕ)
    (h : (m : ℝ) * (θ * (Real.pi / 180)) = a + j * (2 * Real.pi)
      ∨ (m : ℝ) * (θ * (Real.pi / 180)) = (j + 1) * (2 * Real.pi) - a) :
    CrossesAt (fun x => Real.cos ((m : ℝ) * (x * (Real.pi / 180)))) (Real.cos a) θ := by
  have hπ := Real.pi_pos
  have hm' : (0 : ℝ) < m := by exact_mod_cast hm
  have hr : (0 : ℝ) < m * (Real.pi / 180) := by positivity
  have hmin : 0 < min a (Real.pi - a) := lt_min ha0 (by linarith)
  have hmin1 : min a (Real.pi - a) ≤ a := min_le_left _ _
  have hmin2 : min a (Real.pi - a) ≤ Real.pi - a := min_le_right _ _
  -- the angle moves by less than `min a (π - a)` when `θ` moves by less than `δ`
  have hmove : ∀ x : ℝ, (m : ℝ) * (x * (Real.pi / 180))
      = (m : ℝ) * (θ * (Real.pi / 180)) + (x - θ) * (m * (Real.pi / 180)) := fun x => by ring
  have hδ : 0 < min a (Real.pi - a) / (m * (Real.pi / 180)) := div_pos hmin hr
  have hbefore : ∀ x, θ - min a (Real.pi - a) / (m * (Real.pi / 180)) < x → x < θ →
      -min a (Real.pi - a) < (x - θ) * (m * (Real.pi / 180))
      ∧ (x - θ) * (m * (Real.pi / 180)) < 0 := by
    intro x hx hx'
    constructor
    · have : -(min a (Real.pi - a) / (m * (Real.pi / 180))) < x - θ := by linarith
      have := mul_lt_mul_of_pos_right this hr
      rwa [neg_mul, div_mul_cancel₀ _ hr.ne'] at this
    · exact mul_neg_of_neg_of_pos (by linarith) hr
  have hafter : ∀ x, θ < x → x < θ + min a (Real.pi - a) / (m * (Real.pi / 180)) →
      0 < (x - θ) * (m * (Real.pi / 180))
      ∧ (x - θ) * (m * (Real.pi / 180)) < min a (Real.pi - a) := by
    intro x hx hx'
    constructor
    · exact mul_pos (by linarith) hr
    · have : x - θ < min a (Real.pi - a) / (m * (Real.pi / 180)) := by linarith
      have := mul_lt_mul_of_pos_right this hr
      rwa [div_mul_cancel₀ _ hr.ne'] at this
  rcases h with h | h
  · -- the angle is `a + j * 2π`: the cosine decreases through the level
    refine ⟨by show Real.cos ((m : ℝ) * (θ * (Real.pi / 180))) = Real.cos a
               rw [h, Real.cos_add_nat_mul_two_pi], _, hδ, Or.inr ⟨?_, ?_⟩⟩
    · intro x hx hx'
      obtain ⟨h1, h2⟩ := hbefore x hx hx'
      show Real.cos a < Real.cos ((m : ℝ) * (x * (Real.pi / 180)))
      rw [hmove x, h, show a + (j : ℝ) * (2 * Real.pi) + (x - θ) * (m * (Real.pi / 180))
        = (a + (x - θ) * (m * (Real.pi / 180))) + (j : ℝ) * (2 * Real.pi) by ring,
        Real.cos_add_nat_mul_two_pi]
      exact Real.cos_lt_cos_of_nonneg_of_le_pi (by linarith) haπ.le (by linarith)
    · intro x hx hx'
      obtain ⟨h1, h2⟩ := hafter x hx hx'
      show Real.cos ((m : ℝ) * (x * (Real.pi / 180))) < Real.cos a
      rw [hmove x, h, show a + (j : ℝ) * (2 * Real.pi) + (x - θ) * (m * (Real.pi / 180))
        = (a + (x - θ) * (m * (Real.pi / 180))) + (j : ℝ) * (2 * Real.pi) by ring,
        Real.cos_add_nat_mul_two_pi]
      exact Real.cos_lt_cos_of_nonneg_of_le_pi ha0.le (by linarith) (by linarith)
  · -- the angle is `(j + 1) * 2π - a`: the cosine increases through the level
    have hcos : ∀ y : ℝ, Real.cos ((j + 1) * (2 * Real.pi) - a + y) = Real.cos (a - y) := by
      intro y
      have := Real.cos_nat_mul_two_pi_sub (a - y) (j + 1)
      push_cast at this
      rw [← this]
      congr 1
      ring
    refine ⟨by show Real.cos ((m : ℝ) * (θ * (Real.pi / 180))) = Real.cos a
               rw [h]; simpa using hcos 0, _, hδ, Or.inl ⟨?_, ?_⟩⟩
    · intro x hx hx'
      obtain ⟨h1, h2⟩ := hbefore x hx hx'
      show Real.cos ((m : ℝ) * (x * (Real.pi / 180))) < Real.cos a
      rw [hmove x, h, hcos]
      exact Real.cos_lt_cos_of_nonneg_of_le_pi ha0.le (by linarith) (by linarith)
    · intro x hx hx'
      obtain ⟨h1, h2⟩ := hafter x hx hx'
      show Real.cos a < Real.cos ((m : ℝ) * (x * (Real.pi / 180)))
      rw [hmove x, h, hcos]
      exact Real.cos_lt_cos_of_nonneg_of_le_pi (by linarith) haπ.le (by linarith)

/-- Squared radial distance of the sun curve: the law of cosines at the angle
`(number_of_planets - 1) t`. -/
theorem sun_sq_dist (cfg : Config ℝ) (θ : ℝ) :
    (calculateSunCurve ⟨Real.cos, Real.sin, Real.pi⟩ cfg θ).1 ^ 2
      + (calculateSunCurve ⟨Real.cos, Real.sin, Real.pi⟩ cfg θ).2 ^ 2
      = (sun_root_radius cfg + default_eccentricity cfg) ^ 2 + trueEccentricity cfg ^ 2
        + 2 * (sun_root_radius cfg + default_eccentricity cfg) * trueEccentricity cfg
          * Real.cos (((cfg.number_of_planets : ℝ) - 1) * (θ * (Real.pi / 180))) := by
  simp only [calculateSunCurve, degreesToRadians, trueEccentricity]
  rw [sq_dist_same]
  congr 3
  ring

/-- For a valid configuration the radius of the sun's base circle is
`number_of_planets * default_eccentricity`; it is at least twice the true eccentricity, which
is positive. -/
theorem sun_base_radius (cfg : Config ℝ) (hn : 2 ≤ cfg.number_of_planets)
    (hc0 : 0 ≤ cfg.contraction) (hc : cfg.contraction < default_eccentricity cfg) :
    0 < trueEccentricity cfg
    ∧ 2 * trueEccentricity cfg ≤ sun_root_radius cfg + default_eccentricity cfg := by
  have hs := sunReductionRatio_eq cfg (by unfold INT_MIN; omega)
  have hn' : (2 : ℝ) ≤ (cfg.number_of_planets : ℝ) := by exact_mod_cast hn
  have hd : 0 < default_eccentricity cfg := lt_of_le_of_lt hc0 hc
  have hR : sun_root_radius cfg + default_eccentricity cfg
      = (cfg.number_of_planets : ℝ) * default_eccentricity cfg := by
    rw [sun_root_radius, hs]; push_cast; ring
  constructor
  · unfold trueEccentricity; linarith
  · rw [hR]; unfold trueEccentricity; nlinarith

/-- The third side `√(R² + e² + 2 R e c)` is shorter than `R` exactly when `c < -(e / (2 R))`
and longer than `R` exactly when `-(e / (2 R)) < c`. -/
theorem sqrt_third_side_lt (R e c : ℝ) (hR : 0 < R) (he : 0 < e) :
    (Real.sqrt (R ^ 2 + e ^ 2 + 2 * R * e * c) < R ↔ c < -(e / (2 * R)))
    ∧ (R < Real.sqrt (R ^ 2 + e ^ 2 + 2 * R * e * c) ↔ -(e / (2 * R)) < c) := by
  have key : R ^ 2 + e ^ 2 + 2 * R * e * c = R ^ 2 + e * (2 * R) * (c + e / (2 * R)) := by
    field_simp
    ring
  have hp : 0 < e * (2 * R) := by positivity
  constructor
  · rw [Real.sqrt_lt' hR, key]
    constructor
    · intro h
      by_contra hc
      have : 0 ≤ e * (2 * R) * (c + e / (2 * R)) := mul_nonneg hp.le (by linarith)
      linarith
    · intro h
      have : e * (2 * R) * (c + e / (2 * R)) < 0 := mul_neg_of_pos_of_neg hp (by linarith)
      linarith
  · rw [Real.lt_sqrt hR.le, key]
    constructor
    · intro h
      by_contra hc
      have : e * (2 * R) * (c + e / (2 * R)) ≤ 0 :=
        mul_nonpos_of_nonneg_of_nonpos hp.le (by linarith)
      linarith
    · intro h
      have : 0 < e * (2 * R) * (c + e / (2 * R)) := mul_pos hp (by linarith)
      linarith

/-- For a valid configuration the ratio `trueEccentricity / (2 (sun_root_radius +
default_eccentricity))` lies strictly between 0 and 1. -/
theorem sun_ratio_bounds (cfg : Config ℝ) (hn : 2 ≤ cfg.number_of_planets)
    (hc0 : 0 ≤ cfg.contraction) (hc : cfg.contraction < default_eccentricity cfg) :
    0 < trueEccentricity cfg / (2 * (sun_root_radius cfg + default_eccentricity cfg))
    ∧ trueEccentricity cfg / (2 * (sun_root_radius cfg + default_eccentricity cfg)) < 1 := by
  obtain ⟨he, hRe⟩ := sun_base_radius cfg hn hc0 hc
  have hR : 0 < 2 * (sun_root_radius cfg + default_eccentricity cfg) := by linarith
  exact ⟨div_pos he hR, by rw [div_lt_one hR]; linarith⟩

/-- For a valid configuration, the radial distance of the sun curve is below (above) the
radius of the base circle exactly when `cos ((number_of_planets - 1) t)` is below (above)
`-(trueEccentricity / (2 (sun_root_radius + default_eccentricity)))`. -/
theorem sun_dist_side (cfg : Config ℝ) (hn : 2 ≤ cfg.number_of_planets)
    (hc0 : 0 ≤ cfg.contraction) (hc : cfg.contraction < default_eccentricity cfg) (x : ℝ) :
    (Real.sqrt ((calculateSunCurve ⟨Real.cos, Real.sin, Real.pi⟩ cfg x).1 ^ 2
          + (calculateSunCurve ⟨Real.cos, Real.sin, Real.pi⟩ cfg x).2 ^ 2)
        < sun_root_radius cfg + default_eccentricity cfg
      ↔ Real.cos ((((cfg.number_of_planets - 1).toNat : ℕ) : ℝ) * (x * (Real.pi / 180)))
        < -(trueEccentricity cfg / (2 * (sun_root_radius cfg + default_eccentricity cfg))))
    ∧ (sun_root_radius cfg + default_eccentricity cfg
        < Real.sqrt ((calculateSunCurve ⟨Real.cos, Real.sin, Real.pi⟩ cfg x).1 ^ 2
          + (calculateSunCurve ⟨Real.cos, Real.sin, Real.pi⟩ cfg x).2 ^ 2)
      ↔ -(trueEccentricity cfg / (2 * (sun_root_radius cfg + default_eccentricity cfg)))
        < Real.cos ((((cfg.number_of_planets - 1).toNat : ℕ) : ℝ) * (x * (Real.pi / 180)))) := by
  obtain ⟨he, hRe⟩ := sun_base_radius cfg hn hc0 hc
  have hm : (((cfg.number_of_planets - 1).toNat : ℕ) : ℝ) = (cfg.number_of_planets : ℝ) - 1 := by
    have h : (((cfg.number_of_planets - 1).toNat : ℕ) : ℤ) = cfg.number_of_planets - 1 :=
      Int.toNat_of_nonneg (by omega)
    have h' : ((((cfg.number_of_planets - 1).toNat : ℕ) : ℤ) : ℝ)
        = ((cfg.number_of_planets - 1 : ℤ) : ℝ) := by rw [h]
    push_cast at h'
    exact h'
  rw [sun_sq_dist, hm]
  exact sqrt_third_side_lt _ _ _ (by linarith) he

/-- For a valid configuration, the radial distance of the sun curve crosses the radius of
the base circle at `θ` exactly when `cos ((number_of_planets - 1) t)` takes the value
`-(trueEccentricity / (2 (sun_root_radius + default_eccentricity)))` at `θ`. -/
theorem sun_crossesAt_iff (cfg : Config ℝ) (hn : 2 ≤ cfg.number_of_planets)
    (hc0 : 0 ≤ cfg.contraction) (hc : cfg.contraction < default_eccentricity cfg) (θ : ℝ)
    (hθ0 : 0 ≤ θ) (hθ1 : θ < 360) :
    CrossesAt
        (fun x => Real.sqrt ((calculateSunCurve ⟨Real.cos, Real.sin, Real.pi⟩ cfg x).1 ^ 2
          + (calculateSunCurve ⟨Real.cos, Real.sin, Real.pi⟩ cfg x).2 ^ 2))
        (sun_root_radius cfg + default_eccentricity cfg) θ
      ↔ Real.cos ((((cfg.number_of_planets - 1).toNat : ℕ) : ℝ) * (θ * (Real.pi / 180)))
        = -(trueEccentricity cfg / (2 * (sun_root_radius cfg + default_eccentricity cfg))) := by
  obtain ⟨hκ0, hκ1⟩ := sun_ratio_bounds cfg hn hc0 hc
  have hside := sun_dist_side cfg hn hc0 hc
  have hπ := Real.pi_pos
  constructor
  · rintro ⟨heq, -⟩
    rcases lt_trichotomy
      (Real.cos ((((cfg.number_of_planets - 1).toNat : ℕ) : ℝ) * (θ * (Real.pi / 180))))
      (-(trueEccentricity cfg / (2 * (sun_root_radius cfg + default_eccentricity cfg))))
      with h | h | h
    · exact absurd heq (ne_of_lt ((hside θ).1.2 h))
    · exact h
    · exact absurd heq (ne_of_gt ((hside θ).2.2 h))
  · intro h
    have hcos : Real.cos (Real.arccos
        (-(trueEccentricity cfg / (2 * (sun_root_radius cfg + default_eccentricity cfg)))))
        = -(trueEccentricity cfg / (2 * (sun_root_radius cfg + default_eccentricity cfg))) :=
      Real.cos_arccos (by linarith) (by linarith)
    have ha0 : 0 < Real.arccos
        (-(trueEccentricity cfg / (2 * (sun_root_radius cfg + default_eccentricity cfg)))) :=
      Real.arccos_pos.2 (by linarith)
    have haπ : Real.arccos
        (-(trueEccentricity cfg / (2 * (sun_root_radius cfg + default_eccentricity cfg))))
        < Real.pi :=
      lt_of_le_of_ne (Real.arccos_le_pi _) (fun h => by rw [Real.arccos_eq_pi] at h; linarith)
    have hm : 0 < (cfg.number_of_planets - 1).toNat := by omega
    have hm' : (0 : ℝ) < (((cfg.number_of_planets - 1).toNat : ℕ) : ℝ) := by exact_mod_cast hm
    have hu0 : 0 ≤ (((cfg.number_of_planets - 1).toNat : ℕ) : ℝ) * (θ * (Real.pi / 180)) := by
      positivity
    have hu1 : (((cfg.number_of_planets - 1).toNat : ℕ) : ℝ) * (θ * (Real.pi / 180))
        < (((cfg.number_of_planets - 1).toNat : ℕ) : ℝ) * (2 * Real.pi) := by
      apply mul_lt_mul_of_pos_left _ hm'
      nlinarith
    rw [← hcos] at h
    obtain ⟨j, -, hj⟩ := (cos_eq_cos_on_turns _ ha0 haπ _ _ hu0 hu1).1 h
    have hcross := cos_crossesAt _ hm _ ha0 haπ θ j hj
    rw [hcos] at hcross
    exact CrossesAt.congr (fun x => (hside x).1) (fun x => (hside x).2) hcross

/-- For a valid configuration, the radial distance of the sun curve crosses the radius of
the base circle at exactly `2 (number_of_planets - 1)` angles of `[0, 360)`. -/
theorem sun_crossings_ncard (cfg : Config ℝ) (hn : 2 ≤ cfg.number_of_planets)
    (hc0 : 0 ≤ cfg.contraction) (hc : cfg.contraction < default_eccentricity cfg) :
    {θ : ℝ | 0 ≤ θ ∧ θ < 360 ∧ CrossesAt
        (fun x => Real.sqrt ((calculateSunCurve ⟨Real.cos, Real.sin, Real.pi⟩ cfg x).1 ^ 2
          + (calculateSunCurve ⟨Real.cos, Real.sin, Real.pi⟩ cfg x).2 ^ 2))
        (sun_root_radius cfg + default_eccentricity cfg) θ}.ncard
      = 2 * (cfg.number_of_planets - 1).toNat := by
  obtain ⟨hκ0, hκ1⟩ := sun_ratio_bounds cfg hn hc0 hc
  rw [← cos_level_ncard (cfg.number_of_planets - 1).toNat (by omega) _ hκ0 hκ1]
  congr 1
  ext θ
  simp only [Set.mem_setOf_eq]
  constructor
  · rintro ⟨h0, h1, h⟩
    exact ⟨h0, h1, (sun_crossesAt_iff cfg hn hc0 hc θ h0 h1).1 h⟩
  · rintro ⟨h0, h1, h⟩
    exact ⟨h0, h1, (sun_crossesAt_iff cfg hn hc0 hc θ h0 h1).2 h⟩

/-- For a valid configuration, the radial distance of the sun curve lies between
`(sun_root_radius + default_eccentricity) - trueEccentricity` and
`(sun_root_radius + default_eccentricity) + trueEccentricity`, and both values are taken in
`[0, 360)`. -/
theorem sun_radial_range (cfg : Config ℝ) (hn : 2 ≤ cfg.number_of_planets)
    (hc0 : 0 ≤ cfg.contraction) (hc : cfg.contraction < default_eccentricity cfg) :
    (∀ θ : ℝ,
      (sun_root_radius cfg + default_eccentricity cfg) - trueEccentricity cfg
        ≤ Real.sqrt ((calculateSunCurve ⟨Real.cos, Real.sin, Real.pi⟩ cfg θ).1 ^ 2
            + (calculateSunCurve ⟨Real.cos, Real.sin, Real.pi⟩ cfg θ).2 ^ 2)
      ∧ Real.sqrt ((calculateSunCurve ⟨Real.cos, Real.sin, Real.pi⟩ cfg θ).1 ^ 2
            + (calculateSunCurve ⟨Real.cos, Real.sin, Real.pi⟩ cfg θ).2 ^ 2)
        ≤ (sun_root_radius cfg + default_eccentricity cfg) + trueEccentricity cfg)
    ∧ (∃ θ : ℝ, 0 ≤ θ ∧ θ < 360 ∧
        Real.sqrt ((calculateSunCurve ⟨Real.cos, Real.sin, Real.pi⟩ cfg θ).1 ^ 2
            + (calculateSunCurve ⟨Real.cos, Real.sin, Real.pi⟩ cfg θ).2 ^ 2)
          = (sun_root_radius cfg + default_eccentricity cfg) + trueEccentricity cfg)
    ∧ (∃ θ : ℝ, 0 ≤ θ ∧ θ < 360 ∧
        Real.sqrt ((calculateSunCurve ⟨Real.cos, Real.sin, Real.pi⟩ cfg θ).1 ^ 2
            + (calculateSunCurve ⟨Real.cos, Real.sin, Real.pi⟩ cfg θ).2 ^ 2)
          = (sun_root_radius cfg + default_eccentricity cfg) - trueEccentricity cfg) := by
  obtain ⟨he, hRe⟩ := sun_base_radius cfg hn hc0 hc
  have hn' : (2 : ℝ) ≤ (cfg.number_of_planets : ℝ) := by exact_mod_cast hn
  refine ⟨?_, ?_, ?_⟩
  · intro θ
    rw [sun_sq_dist]
    exact sqrt_third_side_bounds _ _ _ he.le (by linarith) (Real.neg_one_le_cos _)
      (Real.cos_le_one _)
  · refine ⟨0, le_refl 0, by norm_num, ?_⟩
    rw [sun_sq_dist, zero_mul, mul_zero, Real.cos_zero]
    rw [show (sun_root_radius cfg + default_eccentricity cfg) ^ 2 + trueEccentricity cfg ^ 2
          + 2 * (sun_root_radius cfg + default_eccentricity cfg) * trueEccentricity cfg * 1
        = ((sun_root_radius cfg + default_eccentricity cfg) + trueEccentricity cfg) ^ 2
      by ring]
    exact Real.sqrt_sq (by linarith)
  · have hpos : (0 : ℝ) < (cfg.number_of_planets : ℝ) - 1 := by linarith
    refine ⟨180 / ((cfg.number_of_planets : ℝ) - 1), by positivity, ?_, ?_⟩
    · rw [div_lt_iff₀ hpos]; nlinarith
    · have harg : ((cfg.number_of_planets : ℝ) - 1)
          * (180 / ((cfg.number_of_planets : ℝ) - 1) * (Real.pi / 180)) = Real.pi := by
        field_simp
        ring
      rw [sun_sq_dist, harg, Real.cos_pi]
      rw [show (sun_root_radius cfg + default_eccentricity cfg) ^ 2 + trueEccentricity cfg ^ 2
            + 2 * (sun_root_radius cfg + default_eccentricity cfg) * trueEccentricity cfg * -1
          = ((sun_root_radius cfg + default_eccentricity cfg) - trueEccentricity cfg) ^ 2
        by ring]
      exact Real.sqrt_sq (by linarith)

/-- C6, as stated, fails for the default configuration (`number_of_planets = 10`, valid): the
radial distance of the sun curve crosses `sun_root_radius + default_eccentricity` at 18
angles of `[0, 360)`, not at `2 * 10 = 20`. -/
theorem sun_crossings_default :
    2 ≤ (defaultConfig ℝ).number_of_planets
    ∧ 0 ≤ (defaultConfig ℝ).contraction
    ∧ (defaultConfig ℝ).contraction < default_eccentricity (defaultConfig ℝ)
    ∧ {θ : ℝ | 0 ≤ θ ∧ θ < 360 ∧ CrossesAt
        (fun x => Real.sqrt
          ((calculateSunCurve ⟨Real.cos, Real.sin, Real.pi⟩ (defaultConfig ℝ) x).1 ^ 2
          + (calculateSunCurve ⟨Real.cos, Real.sin, Real.pi⟩ (defaultConfig ℝ) x).2 ^ 2))
        (sun_root_radius (defaultConfig ℝ) + default_eccentricity (defaultConfig ℝ)) θ}.ncard
      = 18
    ∧ 18 ≠ 2 * (defaultConfig ℝ).number_of_planets.toNat := by
  have h0 : 0 ≤ (defaultConfig ℝ).contraction := by norm_num [defaultConfig]
  have h1 : (defaultConfig ℝ).contraction < default_eccentricity (defaultConfig ℝ) := by
    norm_num [default_eccentricity, defaultConfig]
  refine ⟨by decide, h0, h1, ?_, by decide⟩
  rw [sun_crossings_ncard (defaultConfig ℝ) (by decide) h0 h1]
  decide

/-- C6 (amended): for every valid configuration the sun curve has `number_of_planets - 1`
lobes.  The radial distance of `calculateSunCurve(θ)` from the origin has minimum
`(sun_root_radius + default_eccentricity) - trueEccentricity` and maximum
`(sun_root_radius + default_eccentricity) + trueEccentricity`, both taken in `[0, 360)`, so its
mean radius is `sun_root_radius + default_eccentricity`; and as `θ` ranges over `[0, 360)` the
radial distance crosses the mean radius exactly `2 * (number_of_planets - 1)
= 2 * sunReductionRatio` times. -/
theorem sun_lobes (cfg : Config ℝ) (hn : 2 ≤ cfg.number_of_planets)
    (hc0 : 0 ≤ cfg.contraction) (hc : cfg.contraction < default_eccentricity cfg) :
    ((∀ θ : ℝ,
        (sun_root_radius cfg + default_eccentricity cfg) - trueEccentricity cfg
          ≤ Real.sqrt ((calculateSunCurve ⟨Real.cos, Real.sin, Real.pi⟩ cfg θ).1 ^ 2
              + (calculateSunCurve ⟨Real.cos, Real.sin, Real.pi⟩ cfg θ).2 ^ 2)
        ∧ Real.sqrt ((calculateSunCurve ⟨Real.cos, Real.sin, Real.pi⟩ cfg θ).1 ^ 2
              + (calculateSunCurve ⟨Real.cos, Real.sin, Real.pi⟩ cfg θ).2 ^ 2)
          ≤ (sun_root_radius cfg + default_eccentricity cfg) + trueEccentricity cfg)
      ∧ (∃ θ : ℝ, 0 ≤ θ ∧ θ < 360 ∧
          Real.sqrt ((calculateSunCurve ⟨Real.cos, Real.sin, Real.pi⟩ cfg θ).1 ^ 2
              + (calculateSunCurve ⟨Real.cos, Real.sin, Real.pi⟩ cfg θ).2 ^ 2)
            = (sun_root_radius cfg + default_eccentricity cfg) + trueEccentricity cfg)
      ∧ (∃ θ : ℝ, 0 ≤ θ ∧ θ < 360 ∧
          Real.sqrt ((calculateSunCurve ⟨Real.cos, Real.sin, Real.pi⟩ cfg θ).1 ^ 2
              + (calculateSunCurve ⟨Real.cos, Real.sin, Real.pi⟩ cfg θ).2 ^ 2)
            = (sun_root_radius cfg + default_eccentricity cfg) - trueEccentricity cfg))
    ∧ (({θ : ℝ | 0 ≤ θ ∧ θ < 360 ∧ CrossesAt
          (fun x => Real.sqrt ((calculateSunCurve ⟨Real.cos, Real.sin, Real.pi⟩ cfg x).1 ^ 2
            + (calculateSunCurve ⟨Real.cos, Real.sin, Real.pi⟩ cfg x).2 ^ 2))
          (sun_root_radius cfg + default_eccentricity cfg) θ}.ncard : ℤ)
        = 2 * (cfg.number_of_planets - 1))
    ∧ (({θ : ℝ | 0 ≤ θ ∧ θ < 360 ∧ CrossesAt
          (fun x => Real.sqrt ((calculateSunCurve ⟨Real.cos, Real.sin, Real.pi⟩ cfg x).1 ^ 2
            + (calculateSunCurve ⟨Real.cos, Real.sin, Real.pi⟩ cfg x).2 ^ 2))
          (sun_root_radius cfg + default_eccentricity cfg) θ}.ncard : ℤ)
        = 2 * sunReductionRatio cfg) := by
  have hcount := sun_crossings_ncard cfg hn hc0 hc
  have hm : (((cfg.number_of_planets - 1).toNat : ℕ) : ℤ) = cfg.number_of_planets - 1 :=
    Int.toNat_of_nonneg (by omega)
  have hs := sunReductionRatio_eq cfg (by unfold INT_MIN; omega)
  refine ⟨sun_radial_range cfg hn hc0 hc, ?_, ?_⟩
  · rw [hcount]; push_cast; rw [hm]
  · rw [hcount, hs]; push_cast; rw [hm]

/-- C6, witness: the default configuration has 18 crossings, twice its `sunReductionRatio`
of 9. -/
theorem sun_lobes_default :
    (({θ : ℝ | 0 ≤ θ ∧ θ < 360 ∧ CrossesAt
          (fun x => Real.sqrt
            ((calculateSunCurve ⟨Real.cos, Real.sin, Real.pi⟩ (defaultConfig ℝ) x).1 ^ 2
            + (calculateSunCurve ⟨Real.cos, Real.sin, Real.pi⟩ (defaultConfig ℝ) x).2 ^ 2))
          (sun_root_radius (defaultConfig ℝ) + default_eccentricity (defaultConfig ℝ)) θ}.ncard
        : ℤ)
      = 2 * ((defaultConfig ℝ).number_of_planets - 1))
    ∧ 2 * ((defaultConfig ℝ).number_of_planets - 1) = 18 :=
  ⟨(sun_lobes (defaultConfig ℝ) (by decide) (by norm_num [defaultConfig])
      (by norm_num [default_eccentricity, defaultConfig])).2.1, by decide⟩

/-! ## C7, C8, C9: the sampling loop -/

/-- First element of a function tabulated on `0, ..., N`. -/
theorem head?_map_range {β : Type} (f : ℕ → β) (N : ℕ) :
    ((List.range (N + 1)).map f).head? = some (f 0) := by
  rw [List.range_succ_eq_map]
  rfl

/-- Last element of a function tabulated on `0, ..., N`. -/
theorem getLast?_map_range {β : Type} (f : ℕ → β) (N : ℕ) :
    ((List.range (N + 1)).map f).getLast? = some (f N) := by
  rw [List.range_succ, List.map_append, List.map_singleton, List.getLast?_append]
  rfl

/-- The number of steps of size 7 that fit into 360. -/
theorem floor_360_div_7 : ⌊(360 : ℝ) / 7⌋₊ = 51 := by
  rw [Nat.floor_eq_iff (by positivity)]
  constructor <;> norm_num

/-- The number of steps of size 1 that fit into 360. -/
theorem floor_360_div_1 : ⌊(360 : ℝ) / 1⌋₊ = 360 := by
  rw [div_one]
  exact Nat.floor_ofNat 360

/-- The multiples of 7 up to `52 * 7` are `double`s. -/
theorem exact_step_7 :
    ∀ i : ℕ, i ≤ ⌊(360 : ℝ) / 7⌋₊ + 1 → roundDouble ((i : ℝ) * 7) = (i : ℝ) * 7 := by
  intro i hi
  rw [floor_360_div_7] at hi
  have h := roundDouble_natCast_mul (α := ℝ) i 7
    (lt_of_le_of_lt (Nat.mul_le_mul_right 7 hi) (by norm_num))
  simpa using h

/-- The multiples of 1 up to 361 are `double`s. -/
theorem exact_step_1 :
    ∀ i : ℕ, i ≤ ⌊(360 : ℝ) / 1⌋₊ + 1 → roundDouble ((i : ℝ) * 1) = (i : ℝ) * 1 := by
  intro i hi
  rw [floor_360_div_1] at hi
  have h := roundDouble_natCast_mul (α := ℝ) i 1
    (lt_of_le_of_lt (Nat.mul_le_mul_right 1 hi) (by norm_num))
  simpa using h

/-- The loop at the `double` nearest to `360 / 11`, which is `4605954164356189 / 2 ^ 47` and
lies below `360 / 11`: the eleventh addition rounds to a value above 360, so the loop runs
its body at eleven angles, the last of them near 327.27. -/
theorem sampledAngles_double_360_div_11 :
    sampledAngles (4605954164356189 / 140737488355328 : ℚ) 13
      = some [0, 4605954164356189 / 140737488355328, 4605954164356189 / 70368744177664,
          1727232811633571 / 17592186044416, 4605954164356189 / 35184372088832,
          1439360676361309 / 8796093022208, 6908931246534283 / 35184372088832,
          4030209893811665 / 17592186044416, 4605954164356189 / 17592186044416,
          5181698434900713 / 17592186044416, 5757442705445237 / 17592186044416] := by
  decide!

/-- The number of steps of the `double` nearest to `360 / 11` that fit into 360, in exact
arithmetic. -/
theorem floor_360_div_double_360_div_11 :
    ⌊(360 : ℚ) / (4605954164356189 / 140737488355328)⌋₊ = 11 := by
  rw [Nat.floor_eq_iff (by positivity)]
  constructor <;> norm_num

/-- With the default radii and `step_size = 7`, the sun point at 357 degrees lies strictly
below the x-axis. -/
theorem sun_y_at_357 :
    (calculateSunCurve ⟨Real.cos, Real.sin, Real.pi⟩ ((defaultConfig ℝ).withStep 7) 357).2
      < 0 := by
  have hπ := Real.pi_pos
  have h1 : Real.sin (357 * (Real.pi / 180)) = -Real.sin (Real.pi / 60) := by
    rw [show (357 : ℝ) * (Real.pi / 180) = 2 * Real.pi - Real.pi / 60 by ring,
      Real.sin_two_pi_sub]
  have h2 : Real.sin (10 * (357 * (Real.pi / 180))) = -(1 / 2) := by
    have h := Real.sin_nat_mul_two_pi_sub (Real.pi / 6) 10
    rw [Real.sin_pi_div_six] at h
    rw [← h]
    congr 1
    push_cast
    ring
  have h3 : 0 < Real.sin (Real.pi / 60) :=
    Real.sin_pos_of_pos_of_lt_pi (by positivity) (by linarith)
  have hR : sun_root_radius ((defaultConfig ℝ).withStep 7)
      + default_eccentricity ((defaultConfig ℝ).withStep 7) = 1.9 := by
    norm_num [sun_root_radius, sunReductionRatio, wrapInt32, default_eccentricity,
      defaultConfig, Config.withStep]
  have he : default_eccentricity ((defaultConfig ℝ).withStep 7)
      - ((defaultConfig ℝ).withStep 7).contraction = 0.14 := by
    norm_num [default_eccentricity, defaultConfig, Config.withStep]
  have hn : (((defaultConfig ℝ).withStep 7).number_of_planets : ℝ) = 10 := by
    norm_num [defaultConfig, Config.withStep]
  simp only [calculateSunCurve, degreesToRadians, hR, he, hn, h1, h2]
  norm_num
  nlinarith

/-- C7, as stated, fails at `step_size = 7`: the loop is left after the angle 357, which is
the final sampled angle; 360 is not sampled, and the last point of the sun sequence differs
from its first point.  It also fails at the `double` nearest to `360 / 11`, where the final
sampled angle is near 327.27. -/
theorem sampledAngles_step_seven :
    (sampledAngles (7 : ℝ) 53).map List.getLast? = some (some 357)
    ∧ (357 : ℝ) ≠ 360
    ∧ (∃ sun_points frame_points,
        samplingLoop ⟨Real.cos, Real.sin, Real.pi⟩ ((defaultConfig ℝ).withStep 7) 53
          = some (sun_points, frame_points)
        ∧ sun_points.getLast? ≠ sun_points.head?)
    ∧ (sampledAngles (4605954164356189 / 140737488355328 : ℚ) 13).map List.getLast?
        = some (some (5757442705445237 / 17592186044416))
    ∧ (5757442705445237 / 17592186044416 : ℚ) < 328 := by
  have h7 : ((defaultConfig ℝ).withStep 7).step_size = 7 := rfl
  refine ⟨?_, by norm_num, ⟨_, _,
    samplingLoop_eq _ _ (by rw [h7]; norm_num) (by rw [h7]; norm_num)
      (by rw [h7]; exact exact_step_7) 53 (by rw [h7, floor_360_div_7]), ?_⟩, ?_, by norm_num⟩
  · rw [sampledAngles_eq (7 : ℝ) (by norm_num) (by norm_num) exact_step_7 53
      (by rw [floor_360_div_7]), floor_360_div_7, Option.map_some', getLast?_map_range]
    norm_num
  · rw [List.map_map, getLast?_map_range, head?_map_range, h7, floor_360_div_7]
    simp only [Function.comp, Nat.cast_zero, zero_mul, calculateSunCurve_zero]
    intro h
    have hy := congrArg Point3D.y (Option.some.inj h)
    simp only at hy
    have hlt := sun_y_at_357
    rw [show ((51 : ℕ) : ℝ) * 7 = 357 by norm_num] at hy
    rw [hy] at hlt
    exact lt_irrefl _ hlt
  · rw [sampledAngles_double_360_div_11]
    rfl

/-- C7 (amended): for every step size with `0 < step_size ≤ 360` whose multiples up to the
first one above 360 are `double`s, so that the additions of the loop are exact (every
integer step, for instance), the first sampled angle is 0 and the final sampled angle is
`⌊360 / step_size⌋ * step_size`, the last multiple of the step that does not exceed 360; it
is 360 exactly when `step_size` divides 360, and then, for `number_of_planets ≠ 0`, the
first and the last point of the sun sequence are both the sun point at angle 0, and the
first and the last point of the frame sequence are both the frame point at angle 0. -/
theorem sampled_angles_first_last (cfg : Config ℝ) (hstep : 0 < cfg.step_size)
    (hle : cfg.step_size ≤ 360)
    (hexact : ∀ i : ℕ, i ≤ ⌊360 / cfg.step_size⌋₊ + 1 →
      roundDouble ((i : ℝ) * cfg.step_size) = (i : ℝ) * cfg.step_size)
    (fuel : ℕ) (hfuel : ⌊360 / cfg.step_size⌋₊ + 2 ≤ fuel) :
    ∃ angles sun_points frame_points,
      sampledAngles cfg.step_size fuel = some angles
      ∧ samplingLoop ⟨Real.cos, Real.sin, Real.pi⟩ cfg fuel = some (sun_points, frame_points)
      ∧ angles.head? = some 0
      ∧ angles.getLast? = some ((⌊360 / cfg.step_size⌋₊ : ℝ) * cfg.step_size)
      ∧ ((⌊360 / cfg.step_size⌋₊ : ℝ) * cfg.step_size = 360
          ↔ ∃ k : ℕ, (k : ℝ) * cfg.step_size = 360)
      ∧ (cfg.number_of_planets ≠ 0 → (∃ k : ℕ, (k : ℝ) * cfg.step_size = 360) →
          sun_points.head?
            = some (Point3D.mk (calculateSunCurve ⟨Real.cos, Real.sin, Real.pi⟩ cfg 0).1
                (calculateSunCurve ⟨Real.cos, Real.sin, Real.pi⟩ cfg 0).2 0)
          ∧ sun_points.getLast?
            = some (Point3D.mk (calculateSunCurve ⟨Real.cos, Real.sin, Real.pi⟩ cfg 0).1
                (calculateSunCurve ⟨Real.cos, Real.sin, Real.pi⟩ cfg 0).2 0)
          ∧ frame_points.head?
            = some (Point3D.mk (calculateFrameCurve ⟨Real.cos, Real.sin, Real.pi⟩ cfg 0).1
                (calculateFrameCurve ⟨Real.cos, Real.sin, Real.pi⟩ cfg 0).2 0)
          ∧ frame_points.getLast?
            = some (Point3D.mk (calculateFrameCurve ⟨Real.cos, Real.sin, Real.pi⟩ cfg 0).1
                (calculateFrameCurve ⟨Real.cos, Real.sin, Real.pi⟩ cfg 0).2 0)) := by
  have hiff : ((⌊360 / cfg.step_size⌋₊ : ℝ) * cfg.step_size = 360
      ↔ ∃ k : ℕ, (k : ℝ) * cfg.step_size = 360) := by
    constructor
    · intro h; exact ⟨_, h⟩
    · rintro ⟨k, hk⟩
      have : (360 : ℝ) / cfg.step_size = k := by
        rw [← hk, mul_div_assoc, div_self hstep.ne', mul_one]
      rw [this, Nat.floor_natCast, hk]
  refine ⟨_, _, _, sampledAngles_eq cfg.step_size hstep hle hexact fuel hfuel,
    samplingLoop_eq _ cfg hstep hle hexact fuel hfuel, ?_, ?_, hiff, ?_⟩
  · rw [head?_map_range]; simp
  · rw [getLast?_map_range]
  · intro _ hk
    have h360 := hiff.2 hk
    simp only [List.map_map]
    rw [getLast?_map_range, getLast?_map_range, head?_map_range, head?_map_range]
    simp only [Function.comp, h360, Nat.cast_zero, zero_mul, calculateSunCurve_360,
      calculateFrameCurve_360, and_self]

/-- C7, witness: the default configuration, `step_size = 1`; 1 divides 360, the final
sampled angle is 360 and both sequences start and end with the point at angle 0. -/
theorem sampled_angles_first_last_default :
    ∃ angles sun_points frame_points,
      sampledAngles (defaultConfig ℝ).step_size 362 = some angles
      ∧ samplingLoop ⟨Real.cos, Real.sin, Real.pi⟩ (defaultConfig ℝ) 362
          = some (sun_points, frame_points)
      ∧ angles.head? = some 0
      ∧ angles.getLast? = some 360
      ∧ sun_points.head?
        = some (Point3D.mk (calculateSunCurve ⟨Real.cos, Real.sin, Real.pi⟩ (defaultConfig ℝ) 0).1
            (calculateSunCurve ⟨Real.cos, Real.sin, Real.pi⟩ (defaultConfig ℝ) 0).2 0)
      ∧ sun_points.getLast?
        = some (Point3D.mk (calculateSunCurve ⟨Real.cos, Real.sin, Real.pi⟩ (defaultConfig ℝ) 0).1
            (calculateSunCurve ⟨Real.cos, Real.sin, Real.pi⟩ (defaultConfig ℝ) 0).2 0)
      ∧ frame_points.head?
        = some (Point3D.mk
            (calculateFrameCurve ⟨Real.cos, Real.sin, Real.pi⟩ (defaultConfig ℝ) 0).1
            (calculateFrameCurve ⟨Real.cos, Real.sin, Real.pi⟩ (defaultConfig ℝ) 0).2 0)
      ∧ frame_points.getLast?
        = some (Point3D.mk
            (calculateFrameCurve ⟨Real.cos, Real.sin, Real.pi⟩ (defaultConfig ℝ) 0).1
            (calculateFrameCurve ⟨Real.cos, Real.sin, Real.pi⟩ (defaultConfig ℝ) 0).2 0) := by
  have h : (defaultConfig ℝ).step_size = 1 := rfl
  obtain ⟨angles, sun_points, frame_points, h1, h2, h3, h4, _, h6⟩ :=
    sampled_angles_first_last (defaultConfig ℝ) (by rw [h]; norm_num) (by rw [h]; norm_num)
      (by rw [h]; exact exact_step_1) 362 (by rw [h, floor_360_div_1])
  have hdiv : ∃ k : ℕ, (k : ℝ) * (defaultConfig ℝ).step_size = 360 := ⟨360, by rw [h]; norm_num⟩
  refine ⟨angles, sun_points, frame_points, h1, h2, h3, ?_, h6 (by decide) hdiv⟩
  rw [h4, h, floor_360_div_1]
  norm_num

/-- C8, as stated, fails at its own witness `step_size = 1`: the loop adds 361 points to each
sequence, not `⌊360 / 1⌋ + 2 = 362`.  It also fails at the `double` nearest to `360 / 11`,
where the loop runs its body 11 times and `⌊360 / step_size⌋ + 2 = 13`. -/
theorem samplingLoop_step_one_count :
    (samplingLoop ⟨Real.cos, Real.sin, Real.pi⟩ (defaultConfig ℝ) 362).map
        (fun r => (r.1.length, r.2.length)) = some (361, 361)
    ∧ 361 ≠ ⌊(360 : ℝ) / (defaultConfig ℝ).step_size⌋₊ + 2
    ∧ (sampledAngles (4605954164356189 / 140737488355328 : ℚ) 13).map List.length = some 11
    ∧ 11 ≠ ⌊(360 : ℚ) / (4605954164356189 / 140737488355328)⌋₊ + 2
    ∧ 11 ≠ ⌊(360 : ℚ) / (4605954164356189 / 140737488355328)⌋₊ + 1 := by
  have h : (defaultConfig ℝ).step_size = 1 := rfl
  refine ⟨?_, ?_, ?_, ?_, ?_⟩
  · rw [samplingLoop_eq _ (defaultConfig ℝ) (by rw [h]; norm_num) (by rw [h]; norm_num)
      (by rw [h]; exact exact_step_1) 362 (by rw [h, floor_360_div_1])]
    simp [h, floor_360_div_1]
  · rw [h, floor_360_div_1]
    decide
  · rw [sampledAngles_double_360_div_11]
    rfl
  · rw [floor_360_div_double_360_div_11]
    decide
  · rw [floor_360_div_double_360_div_11]
    decide

/-- C8 (amended): for every step size with `0 < step_size ≤ 360` whose multiples up to the
first one above 360 are `double`s, so that the additions of the loop are exact (every
integer step, for instance), the sampling loop terminates and adds exactly
`⌊360 / step_size⌋ + 1` points to the sun sequence and the same number to the frame
sequence. -/
theorem sampling_count [FloorRing α] (E : MathEnv α) (cfg : Config α)
    (hstep : 0 < cfg.step_size) (hle : cfg.step_size ≤ 360)
    (hexact : ∀ i : ℕ, i ≤ ⌊360 / cfg.step_size⌋₊ + 1 →
      roundDouble ((i : α) * cfg.step_size) = (i : α) * cfg.step_size)
    (fuel : ℕ) (hfuel : ⌊360 / cfg.step_size⌋₊ + 2 ≤ fuel) :
    ∃ sun_points frame_points,
      samplingLoop E cfg fuel = some (sun_points, frame_points)
      ∧ sun_points.length = ⌊360 / cfg.step_size⌋₊ + 1
      ∧ frame_points.length = ⌊360 / cfg.step_size⌋₊ + 1 :=
  ⟨_, _, samplingLoop_eq E cfg hstep hle hexact fuel hfuel, by simp, by simp⟩

/-- C8, witness: `step_size = 1` gives 361 points for each curve. -/
theorem sampling_count_step_one :
    ∃ sun_points frame_points,
      samplingLoop ⟨Real.cos, Real.sin, Real.pi⟩ (defaultConfig ℝ) 362
        = some (sun_points, frame_points)
      ∧ sun_points.length = 361 ∧ frame_points.length = 361 := by
  have h : (defaultConfig ℝ).step_size = 1 := rfl
  have hw := sampling_count ⟨Real.cos, Real.sin, Real.pi⟩ (defaultConfig ℝ)
    (by rw [h]; norm_num) (by rw [h]; norm_num) (by rw [h]; exact exact_step_1) 362
    (by rw [h, floor_360_div_1])
  rw [h, floor_360_div_1] at hw
  exact hw

/-- C9, as stated, fails: configurations with `number_of_planets = 1` and with
`contraction = 0.19 = default_eccentricity` are not rejected; the loop samples 361 points of
each curve for them. -/
theorem samplingLoop_invalid_config :
    (samplingLoop ⟨Real.cos, Real.sin, Real.pi⟩
        ((defaultConfig ℝ).withPlanets 1) 362).map
      (fun r => (r.1.length, r.2.length)) = some (361, 361)
    ∧ (samplingLoop ⟨Real.cos, Real.sin, Real.pi⟩
        ((defaultConfig ℝ).withContraction 0.19) 362).map
      (fun r => (r.1.length, r.2.length)) = some (361, 361)
    ∧ trueEccentricity ((defaultConfig ℝ).withContraction 0.19) = 0 := by
  have h1 : ((defaultConfig ℝ).withPlanets 1).step_size = 1 := rfl
  have h2 : ((defaultConfig ℝ).withContraction 0.19).step_size = 1 := rfl
  refine ⟨?_, ?_, ?_⟩
  · rw [samplingLoop_eq _ _ (by rw [h1]; norm_num) (by rw [h1]; norm_num)
      (by rw [h1]; exact exact_step_1) 362 (by rw [h1, floor_360_div_1])]
    simp only [h1, floor_360_div_1, Option.map_some', List.length_map, List.length_range]
  · rw [samplingLoop_eq _ _ (by rw [h2]; norm_num) (by rw [h2]; norm_num)
      (by rw [h2]; exact exact_step_1) 362 (by rw [h2, floor_360_div_1])]
    simp only [h2, floor_360_div_1, Option.map_some', List.length_map, List.length_range]
  · norm_num [trueEccentricity, default_eccentricity, defaultConfig, Config.withContraction]

/-- C9 (amended): the sampling loop rejects no configuration and treats valid and invalid
configurations alike.  For every configuration and every bound, whether the loop is left and
the angles it samples are those of its `step_size` alone, whatever `number_of_planets`,
`contraction` and the radii are; at every sampled angle one point of each curve is added; and
when the loop is left, both sequences start with the curve point at angle 0. -/
theorem sampling_never_rejects [FloorRing α] (E : MathEnv α) (cfg : Config α) (fuel : ℕ) :
    samplingLoop E cfg fuel
      = (sampledAngles cfg.step_size fuel).map
          (fun l => (l.map (fun a => Point3D.mk (calculateSunCurve E cfg a).1
              (calculateSunCurve E cfg a).2 0),
            l.map (fun a => Point3D.mk (calculateFrameCurve E cfg a).1
              (calculateFrameCurve E cfg a).2 0)))
    ∧ ∀ sun_points frame_points, samplingLoop E cfg fuel = some (sun_points, frame_points) →
        sun_points.head? = some (Point3D.mk (calculateSunCurve E cfg 0).1
            (calculateSunCurve E cfg 0).2 0)
        ∧ frame_points.head? = some (Point3D.mk (calculateFrameCurve E cfg 0).1
            (calculateFrameCurve E cfg 0).2 0)
        ∧ sun_points.length = frame_points.length := by
  refine ⟨samplingLoop_eq_map E cfg fuel, ?_⟩
  intro sun_points frame_points h
  rw [samplingLoop_eq_map] at h
  cases hl : sampledAngles cfg.step_size fuel with
  | none => rw [hl] at h; simp at h
  | some l =>
    rw [hl, Option.map_some'] at h
    have hpair := Option.some.inj h
    have hsun : sun_points = l.map (fun a => Point3D.mk (calculateSunCurve E cfg a).1
        (calculateSunCurve E cfg a).2 0) := (congrArg Prod.fst hpair).symm
    have hframe : frame_points = l.map (fun a => Point3D.mk (calculateFrameCurve E cfg a).1
        (calculateFrameCurve E cfg a).2 0) := (congrArg Prod.snd hpair).symm
    have hhead : l.head? = some 0 := by
      cases fuel with
      | zero => simp [sampledAngles, forAngle] at hl
      | succ f =>
        rw [sampledAngles, forAngle, if_pos (by norm_num)] at hl
        split_ifs at hl
        · rw [← Option.some.inj hl]; rfl
        · rw [forAngle_record_head _ _ _ _ _ (by simp) hl]; rfl
    rw [hsun, hframe]
    refine ⟨?_, ?_, by simp⟩
    · rw [List.head?_map, hhead]; rfl
    · rw [List.head?_map, hhead]; rfl

/-- C9, witness: with `number_of_planets = 1` and `step_size = 1` the loop is left, and both
sequences start with the curve point at angle 0. -/
theorem sampling_never_rejects_witness :
    ∃ sun_points frame_points,
      samplingLoop ⟨Real.cos, Real.sin, Real.pi⟩ ((defaultConfig ℝ).withPlanets 1) 362
        = some (sun_points, frame_points)
      ∧ sun_points.head?
        = some (Point3D.mk
            (calculateSunCurve ⟨Real.cos, Real.sin, Real.pi⟩
              ((defaultConfig ℝ).withPlanets 1) 0).1
            (calculateSunCurve ⟨Real.cos, Real.sin, Real.pi⟩
              ((defaultConfig ℝ).withPlanets 1) 0).2 0)
      ∧ frame_points.head?
        = some (Point3D.mk
            (calculateFrameCurve ⟨Real.cos, Real.sin, Real.pi⟩
              ((defaultConfig ℝ).withPlanets 1) 0).1
            (calculateFrameCurve ⟨Real.cos, Real.sin, Real.pi⟩
              ((defaultConfig ℝ).withPlanets 1) 0).2 0)
      ∧ sun_points.length = frame_points.length := by
  have h1 : ((defaultConfig ℝ).withPlanets 1).step_size = 1 := rfl
  have hloop := samplingLoop_eq ⟨Real.cos, Real.sin, Real.pi⟩ ((defaultConfig ℝ).withPlanets 1)
    (by rw [h1]; norm_num) (by rw [h1]; norm_num) (by rw [h1]; exact exact_step_1) 362
    (by rw [h1, floor_360_div_1])
  exact ⟨_, _, hloop,
    (sampling_never_rejects ⟨Real.cos, Real.sin, Real.pi⟩ ((defaultConfig ℝ).withPlanets 1)
      362).2 _ _ hloop⟩

/-! ## C10: the control flow of `run` -/

/-- C10 fails on the code: `run` returns `false` for every host.  With every requested object
non-null it returns `false` at the `return false;` that follows the unbraced
`if (!design)`, having made no host call and sampled no point; the only host call `run` can
make is the message box for a null design. -/
theorem run_returns_false [FloorRing α] (E : MathEnv α) (cfg : Config α) (fuel : ℕ) :
    runResult E cfg fuel Host.allNonNull = some (Except.error false, [])
    ∧ ∀ host : Host, runResult E cfg fuel host
        = some (Except.error false, if host.app && host.ui && !host.design
            then [Event.messageBox "Failed to get design!"] else []) := by
  refine ⟨rfl, ?_⟩
  intro host
  obtain ⟨a, u, d, _, _, _, _, _, _, _, _, _, _, _, _, _, _, _, _, _, _, _, _, _, _, _, _, _⟩ := host
  cases a <;> cases u <;> cases d <;> rfl

end PlanetaryEccentricCycloid
